import Mathlib

/-!
Verification of the fragrance-addict-backend scrape-queue and HTML-extraction
pipeline.  The definitions below are a shallow embedding of the JavaScript
source: the persistent queue operations (`dataStore.queueEnqueue`,
`dataStore.queueDequeue`, `dataStore.queueResetStuck`), the catalog upsert
(`dataStore.add` with its `ON CONFLICT (source_url)` merge), the worker loop
(`processQueue`), and the pure extraction helpers (`extractPerformanceMetric`,
`extractSeasonUsage`, `extractRating`) together with the validation step of
`scrapePerfume`.
-/

namespace FragranceBackend

/-- JavaScript `Math.round`: round half toward positive infinity. -/
def jsRound (q : ℚ) : ℤ := ⌊q + 1/2⌋

/-- SQL `COALESCE` on two nullable values: the first non-NULL one. -/
def coalesce {α : Type} : Option α → Option α → Option α
  | some v, _ => some v
  | none, o => o

@[simp] theorem coalesce_some {α : Type} (v : α) (o : Option α) :
    coalesce (some v) o = some v := rfl

@[simp] theorem coalesce_none {α : Type} (o : Option α) :
    coalesce none o = o := rfl

/-! ## Persistent scrape queue (`scrape_queue` table)

A queue state is the list of rows of the `scrape_queue` table, in insertion
order.  The table has a UNIQUE constraint on `url`; `status` defaults to
`'pending'`; `created_at` defaults to `NOW()` (modelled as a `Nat` timestamp).
-/

/-- The `status` column of `scrape_queue`. -/
inductive QStatus : Type
  | pending
  | processing
  | done
  | failed
deriving DecidableEq, Repr

/-- One row of the `scrape_queue` table. -/
structure QueueEntry : Type where
  url : String
  status : QStatus
  retryCount : Nat
  errorMsg : Option String
  createdAt : Nat
deriving DecidableEq, Repr

/-- The `scrape_queue` table contents, in row order. -/
abbrev QueueState := List QueueEntry

/-- The URLs of the currently `pending` rows (in row order). -/
def pendingUrls (q : QueueState) : List String :=
  (q.filter fun e => e.status == QStatus.pending).map QueueEntry.url

/-- `dataStore.queueDequeue`: the single-statement atomic claim
`UPDATE scrape_queue SET status = 'processing' WHERE id = (SELECT id FROM
scrape_queue WHERE status = 'pending' ORDER BY created_at ASC LIMIT 1 FOR
UPDATE SKIP LOCKED) RETURNING url`.  It selects a pending row of minimal
`created_at`, marks it `processing` and returns its url, or returns `none`
when no row is pending. -/
def queueDequeue (q : QueueState) : Option String × QueueState :=
  match (q.filter fun e => e.status == QStatus.pending).argmin QueueEntry.createdAt with
  | none => (none, q)
  | some sel =>
      (some sel.url,
       q.map fun e => if e.url == sel.url then { e with status := QStatus.processing } else e)

/-- `n` successive atomic `queueDequeue` claims (the serialization of `n`
concurrent callers: each claim is a single SQL statement, hence atomic);
returns the list of claimed urls and the final state. -/
def dequeueMany : Nat → QueueState → List String × QueueState
  | 0, q => ([], q)
  | n + 1, q =>
      match queueDequeue q with
      | (none, q') => ([], q')
      | (some u, q') =>
          let r := dequeueMany n q'
          (u :: r.1, r.2)

/-- `dataStore.queueResetStuck`: `UPDATE scrape_queue SET status = 'pending'
WHERE status = 'processing'`; returns the row count. -/
def queueResetStuck (q : QueueState) : Nat × QueueState :=
  ((q.filter fun e => e.status == QStatus.processing).length,
   q.map fun e =>
     if e.status == QStatus.processing then { e with status := QStatus.pending } else e)

/-- A freshly enqueued row: `INSERT INTO scrape_queue (url)` with column
defaults `status = 'pending'`, `retry_count = 0`, `error_msg = NULL`,
`created_at = NOW()`. -/
def newEntry (u : String) (now : Nat) : QueueEntry :=
  { url := u, status := QStatus.pending, retryCount := 0, errorMsg := none, createdAt := now }

/-- `dataStore.queueEnqueue`: `INSERT INTO scrape_queue (url) VALUES ... ON
CONFLICT (url) DO NOTHING` over the given url list (all in one statement, so
they share the `NOW()` timestamp); returns the number of rows actually
inserted together with the new table state. -/
def queueEnqueue (urls : List String) (now : Nat) (q : QueueState) : Nat × QueueState :=
  urls.foldl
    (fun acc u =>
      if (acc.2.map QueueEntry.url).contains u then acc
      else (acc.1 + 1, acc.2 ++ [newEntry u now]))
    (0, q)

/-! ## Catalog store (`perfumes` table) and `dataStore.add`

`dataStore.add` builds a parameter array from the incoming JS object
(with `x || null` falsy-to-null coercions and `JSON.stringify` for the
jsonb columns) and runs an `INSERT ... ON CONFLICT (source_url) DO UPDATE`
with per-column `COALESCE(EXCLUDED.col, perfumes.col)` merge rules.

JSON-serialized columns need care: `JSON.stringify(x || null)` yields the
*JSON text* `"null"` when `x` is falsy, which Postgres stores as the jsonb
`null` value — **not** SQL `NULL`.  A jsonb column value is therefore
modelled as `Option (Option α)`: the outer `Option` is SQL NULL-ness, the
inner one jsonb-`null`-ness. -/

/-- The notes pyramid `{top, heart, base}` produced by `extractNotes`. -/
structure NotesPyramid : Type where
  top : List String
  heart : List String
  base : List String
deriving DecidableEq, Repr

/-- A performance metric value `{dominant, percentage, votes}` as produced by
`extractPerformanceMetric` (votes as an association list in insertion order). -/
structure PerfMetric : Type where
  dominant : String
  percentage : ℤ
  votes : List (String × ℤ)
deriving DecidableEq, Repr

/-- The normalized season/time-of-day usage map produced by
`extractSeasonUsage` (each value 0–100). -/
structure SeasonMap : Type where
  winter : ℤ
  spring : ℤ
  summer : ℤ
  autumn : ℤ
  day : ℤ
  night : ℤ
deriving DecidableEq, Repr

/-- The JS object handed to `dataStore.add` (the fields the insert reads). -/
structure PerfumeIn : Type where
  name : Option String
  brand : Option String
  year : Option ℤ
  perfumer : Option String
  perfumerImageUrl : Option String
  gender : Option String
  concentration : Option String
  notes : Option NotesPyramid
  accords : Option (List String)
  description : Option String
  imageUrl : Option String
  rating : Option ℚ
  sillage : Option PerfMetric
  longevity : Option PerfMetric
  projection : Option String
  similarPerfumes : Option (List String)
  seasonUsage : Option SeasonMap
  sourceUrl : Option String
  scrapedAt : Option String
deriving DecidableEq, Repr

/-- JS `x || null` on an optional string: `""` is falsy and becomes null. -/
def orNullStr : Option String → Option String
  | some "" => none
  | o => o

/-- JS `x || null` on an optional integer: `0` is falsy and becomes null. -/
def orNullInt : Option ℤ → Option ℤ
  | some 0 => none
  | o => o

/-- JS `x || null` on an optional rational number: `0` is falsy and becomes
null. -/
def orNullRat : Option ℚ → Option ℚ
  | none => none
  | some r => if r = 0 then none else some r

/-- The SQL parameter values `dataStore.add` binds (`values` array in the
source, identity/timestamp columns omitted).  `sillage` and `longevity` are
bound as `JSON.stringify(x || null)`: a jsonb value that is never SQL NULL
(inner `Option` is the jsonb `null`).  `season_usage` is bound as
`x ? JSON.stringify(x) : null`: SQL NULL when absent. -/
structure AddParams : Type where
  name : Option String
  brand : Option String
  year : Option ℤ
  perfumer : Option String
  perfumerImageUrl : Option String
  gender : Option String
  concentration : Option String
  notes : NotesPyramid
  accords : List String
  description : Option String
  imageUrl : Option String
  rating : Option ℚ
  sillage : Option PerfMetric
  longevity : Option PerfMetric
  projection : Option String
  similarPerfumes : List String
  seasonUsage : Option SeasonMap
  sourceUrl : Option String
  scrapedAt : Option String
deriving DecidableEq, Repr

/-- Serialization of the incoming object into the bound SQL parameters,
mirroring the `values` array of `dataStore.add` line by line. -/
def toParams (p : PerfumeIn) : AddParams where
  name := p.name
  brand := p.brand
  year := orNullInt p.year
  perfumer := orNullStr p.perfumer
  perfumerImageUrl := orNullStr p.perfumerImageUrl
  gender := orNullStr p.gender
  concentration := orNullStr p.concentration
  notes := p.notes.getD { top := [], heart := [], base := [] }
  accords := p.accords.getD []
  description := orNullStr p.description
  imageUrl := orNullStr p.imageUrl
  rating := orNullRat p.rating
  sillage := p.sillage
  longevity := p.longevity
  projection := orNullStr p.projection
  similarPerfumes := p.similarPerfumes.getD []
  seasonUsage := p.seasonUsage
  sourceUrl := orNullStr p.sourceUrl
  scrapedAt := orNullStr p.scrapedAt

/-- One stored row of the `perfumes` table (the columns `dataStore.add`
touches).  `sillage`/`longevity` are jsonb columns: outer `Option` is SQL
NULL, inner `Option` is the jsonb `null` value. -/
structure PerfumeRow : Type where
  name : Option String
  brand : Option String
  year : Option ℤ
  perfumer : Option String
  perfumerImageUrl : Option String
  gender : Option String
  concentration : Option String
  notes : NotesPyramid
  accords : List String
  description : Option String
  imageUrl : Option String
  rating : Option ℚ
  sillage : Option (Option PerfMetric)
  longevity : Option (Option PerfMetric)
  projection : Option String
  similarPerfumes : List String
  seasonUsage : Option SeasonMap
  sourceUrl : Option String
  scrapedAt : Option String
deriving DecidableEq, Repr

/-- The row produced by a conflict-free `INSERT` in `dataStore.add`. -/
def insertRow (ex : AddParams) : PerfumeRow where
  name := ex.name
  brand := ex.brand
  year := ex.year
  perfumer := ex.perfumer
  perfumerImageUrl := ex.perfumerImageUrl
  gender := ex.gender
  concentration := ex.concentration
  notes := ex.notes
  accords := ex.accords
  description := ex.description
  imageUrl := ex.imageUrl
  rating := ex.rating
  sillage := some ex.sillage
  longevity := some ex.longevity
  projection := ex.projection
  similarPerfumes := ex.similarPerfumes
  seasonUsage := ex.seasonUsage
  sourceUrl := ex.sourceUrl
  scrapedAt := ex.scrapedAt

/-- The `ON CONFLICT (source_url) DO UPDATE SET ...` clause of
`dataStore.add`, merging the stored row `old` with the bound parameters
`ex` (`EXCLUDED`).  `name`, `brand`, `notes`, `accords`, `scraped_at` are
overwritten; the scalar columns are `COALESCE(EXCLUDED.col, perfumes.col)`;
`sillage`/`longevity` are also `COALESCE`d, but their `EXCLUDED` value is
never SQL NULL (it is jsonb, possibly jsonb `null`), so the coalesce always
takes the incoming value; `projection` and `similar_perfumes` are not in the
SET list and keep the stored value. -/
def mergeOnConflict (old : PerfumeRow) (ex : AddParams) : PerfumeRow where
  name := ex.name
  brand := ex.brand
  year := coalesce ex.year old.year
  perfumer := coalesce ex.perfumer old.perfumer
  perfumerImageUrl := coalesce ex.perfumerImageUrl old.perfumerImageUrl
  gender := coalesce ex.gender old.gender
  concentration := coalesce ex.concentration old.concentration
  notes := ex.notes
  accords := ex.accords
  description := coalesce ex.description old.description
  imageUrl := coalesce ex.imageUrl old.imageUrl
  rating := coalesce ex.rating old.rating
  sillage := coalesce (some ex.sillage) old.sillage
  longevity := coalesce (some ex.longevity) old.longevity
  projection := old.projection
  similarPerfumes := old.similarPerfumes
  seasonUsage := coalesce ex.seasonUsage old.seasonUsage
  sourceUrl := old.sourceUrl
  scrapedAt := ex.scrapedAt

/-- `dataStore.add` on the `perfumes` table (rows in insertion order): an
`INSERT ... ON CONFLICT (source_url) DO UPDATE` fires the merge exactly when
the bound `source_url` is non-NULL and a row with that `source_url` exists;
otherwise a new row is appended.  Returns the new table and the row the
statement `RETURNING *` yields. -/
def dataStoreAdd (table : List PerfumeRow) (p : PerfumeIn) :
    List PerfumeRow × PerfumeRow :=
  let ex := toParams p
  match ex.sourceUrl with
  | none => (table ++ [insertRow ex], insertRow ex)
  | some u =>
      match table.find? (fun r => r.sourceUrl == some u) with
      | none => (table ++ [insertRow ex], insertRow ex)
      | some old =>
          (table.map fun r =>
             if r.sourceUrl == some u then mergeOnConflict r ex else r,
           mergeOnConflict old ex)

/-- The JS-level value a caller reads back from a jsonb column via
`toCamelCase`: both SQL NULL and jsonb `null` parse to JS `null`. -/
def readJsonb {α : Type} (v : Option (Option α)) : Option α := v.getD none

/-! ## Worker loop (`processQueue`, scraper route)

One iteration of the `while (scrapingQueue.processing)` loop, after the
dequeue returned a url.  The iteration's branch is decided by what
`existsBySourceUrl`/`scrapePerfume` did; its observable effects are the
queue-status mark for the url and the sleeps performed (in ms), plus the
new value of the loop-local `consecutiveRateLimits` counter. -/

/-- How an iteration of `processQueue` turns out for the dequeued url. -/
inductive IterOutcome : Type
  | skipExisting
  | success
  | noData
  | rateLimited
  | invalidData
  | otherError
deriving DecidableEq, Repr

/-- The observable per-iteration effects of `processQueue`. -/
structure IterEffects : Type where
  mark : Option QStatus
  sleeps : List Nat
deriving DecidableEq, Repr

/-- `RATE_LIMIT_PAUSE_MS` (2 min short cooldown). -/
def ratePauseMs : Nat := 120000

/-- The 5-minute long cooldown (`5 * 60 * 1000`). -/
def longPauseMs : Nat := 5 * 60 * 1000

/-- The standard inter-request politeness delay (15 s). -/
def interRequestMs : Nat := 15000

/-- `MAX_RATE_LIMIT_RETRIES`. -/
def maxRateLimitRetries : Nat := 3

/-- One `processQueue` iteration body: given the current
`consecutiveRateLimits` counter and the iteration's outcome, the new counter
value and the effects, transcribing the branch structure of the source:
skip (`continue`, no delay), success/no-data (reset counter, 15 s delay),
rate-limited (mark pending, increment counter, long pause + reset on
reaching the max, else short pause, `continue` past the 15 s delay),
invalid-data (mark failed, reset counter, `continue` immediately),
other error (mark failed, fall through to the 15 s delay). -/
def processIteration (crl : Nat) : IterOutcome → Nat × IterEffects
  | IterOutcome.skipExisting => (0, { mark := some QStatus.done, sleeps := [] })
  | IterOutcome.success => (0, { mark := some QStatus.done, sleeps := [interRequestMs] })
  | IterOutcome.noData => (0, { mark := some QStatus.failed, sleeps := [interRequestMs] })
  | IterOutcome.rateLimited =>
      if crl + 1 ≥ maxRateLimitRetries then
        (0, { mark := some QStatus.pending, sleeps := [longPauseMs] })
      else
        (crl + 1, { mark := some QStatus.pending, sleeps := [ratePauseMs] })
  | IterOutcome.invalidData => (0, { mark := some QStatus.failed, sleeps := [] })
  | IterOutcome.otherError => (crl, { mark := some QStatus.failed, sleeps := [interRequestMs] })

/-! ## Performance-metric extraction (`extractPerformanceMetric`)

The cheerio scans of the three strategies all funnel into the same `votes`
object through `votes[key] = Math.max(votes[key] || 0, count)`, guarded by
`if (key && !isNaN(count) && count >= 0)`.  The scans are modelled as the
list of `(labelText, parsedCount)` observations they produce (`none` for a
`NaN` parse), in scan order; the label maps are the source's
`LONGEVITY_LABELS` / `SILLAGE_LABELS` tables. -/

/-- `LONGEVITY_LABELS`: normalized label text → category key. -/
def longevityLabels : String → Option String
  | "poor" => some "poor"
  | "very weak" => some "veryweak"
  | "weak" => some "weak"
  | "moderate" => some "moderate"
  | "long lasting" => some "longlasting"
  | "very long lasting" => some "verylong"
  | "very long" => some "verylong"
  | "eternal" => some "eternal"
  | "escasa" => some "poor"
  | "muy débil" => some "veryweak"
  | "muy debil" => some "veryweak"
  | "débil" => some "weak"
  | "debil" => some "weak"
  | "moderada" => some "moderate"
  | "duradera" => some "longlasting"
  | "muy duradera" => some "verylong"
  | "eterna" => some "eternal"
  | _ => none

/-- `SILLAGE_LABELS`: normalized label text → category key. -/
def sillageLabels : String → Option String
  | "intimate" => some "intimate"
  | "moderate" => some "moderate"
  | "strong" => some "strong"
  | "enormous" => some "enormous"
  | "suave" => some "intimate"
  | "moderada" => some "moderate"
  | "fuerte" => some "strong"
  | "pesada" => some "strong"
  | "enorme" => some "enormous"
  | _ => none

/-- The `votes` accumulator object: association list in key-insertion order
(JS object property order for string keys). -/
abbrev VotesMap := List (String × ℤ)

/-- `votes[key] || 0`. -/
def votesGet (v : VotesMap) (k : String) : ℤ :=
  ((v.find? fun p => p.1 == k).map Prod.snd).getD 0

/-- `votes[key] = c`: update in place, or append a new key. -/
def votesSet (v : VotesMap) (k : String) (c : ℤ) : VotesMap :=
  match v with
  | [] => [(k, c)]
  | p :: rest => if p.1 == k then (k, c) :: rest else p :: votesSet rest k c

/-- `votes[key] = Math.max(votes[key] || 0, count)`. -/
def recordVote (v : VotesMap) (k : String) (c : ℤ) : VotesMap :=
  votesSet v k (max (votesGet v k) c)

/-- The accumulation loop of `extractPerformanceMetric` over all scan
observations: `if (key && !isNaN(count) && count >= 0) votes[key] =
Math.max(votes[key] || 0, count)`. -/
def accumulateVotes (labels : String → Option String)
    (obs : List (String × Option ℤ)) : VotesMap :=
  obs.foldl
    (fun v o =>
      match labels o.1, o.2 with
      | some key, some c => if 0 ≤ c then recordVote v key c else v
      | _, _ => v)
    []

/-- The final block of `extractPerformanceMetric`: `null` on an empty votes
object, else dominant = highest-vote category (first one on ties, as in the
stable descending sort of `Object.entries`), `percentage =
Math.round((maxVotes / totalVotes) * 100)` guarded to `0` when the total is
`0`. -/
def finalizeMetric (v : VotesMap) : Option PerfMetric :=
  match v.argmax Prod.snd with
  | none => none
  | some dom =>
      let total : ℤ := (v.map Prod.snd).sum
      let pct : ℤ := if 0 < total then jsRound ((dom.2 : ℚ) / (total : ℚ) * 100) else 0
      some { dominant := dom.1, percentage := pct, votes := v }

/-- `extractPerformanceMetric($, metric)` as a function of the scan
observations, with the label table of the chosen metric. -/
def extractPerformanceMetric (labels : String → Option String)
    (obs : List (String × Option ℤ)) : Option PerfMetric :=
  finalizeMetric (accumulateVotes labels obs)

/-! ## Season/time-of-day extraction (`extractSeasonUsage`)

The six fixed buckets of the `result` object.  The DOM strategies are
modelled as the `(bucket, parsedVotes)` observations they produce (bucket
already resolved through `keyMap`, votes already through `parseVotes`, which
supports the `k` × 1000 suffix and can thus be fractional); the loop body is
`if (n > 0) { result[key] = Math.max(result[key], n); found = true }`. -/

/-- The six season/time-of-day buckets. -/
inductive Season : Type
  | winter
  | spring
  | summer
  | autumn
  | day
  | night
deriving DecidableEq, Repr

/-- The raw per-bucket vote counts (the `result` object before
normalization), initialized to all zeros. -/
structure SeasonVotes : Type where
  winter : ℚ
  spring : ℚ
  summer : ℚ
  autumn : ℚ
  day : ℚ
  night : ℚ
deriving DecidableEq, Repr

/-- Read one bucket of the raw counts. -/
def SeasonVotes.get (v : SeasonVotes) : Season → ℚ
  | Season.winter => v.winter
  | Season.spring => v.spring
  | Season.summer => v.summer
  | Season.autumn => v.autumn
  | Season.day => v.day
  | Season.night => v.night

/-- `result[key] = Math.max(result[key], n)`. -/
def SeasonVotes.bump (v : SeasonVotes) (s : Season) (n : ℚ) : SeasonVotes :=
  match s with
  | Season.winter => { v with winter := max v.winter n }
  | Season.spring => { v with spring := max v.spring n }
  | Season.summer => { v with summer := max v.summer n }
  | Season.autumn => { v with autumn := max v.autumn n }
  | Season.day => { v with day := max v.day n }
  | Season.night => { v with night := max v.night n }

/-- The all-zero initial `result` object. -/
def SeasonVotes.zero : SeasonVotes :=
  { winter := 0, spring := 0, summer := 0, autumn := 0, day := 0, night := 0 }

/-- The accumulation loop of `extractSeasonUsage` over the scan
observations, together with the `found` flag. -/
def seasonAccumulate (obs : List (Season × ℚ)) : SeasonVotes × Bool :=
  obs.foldl
    (fun acc o => if 0 < o.2 then (acc.1.bump o.1 o.2, true) else acc)
    (SeasonVotes.zero, false)

/-- The maximum raw count over the six buckets
(`Math.max(...Object.values(result))`). -/
def SeasonVotes.maxVal (v : SeasonVotes) : ℚ :=
  max v.winter (max v.spring (max v.summer (max v.autumn (max v.day v.night))))

/-- `extractSeasonUsage($)` as a function of the scan observations: `null`
when nothing was found (or the maximum is zero), else each bucket normalized
by `Math.round((v / max) * 100)`. -/
def extractSeasonUsage (obs : List (Season × ℚ)) : Option SeasonMap :=
  let acc := seasonAccumulate obs
  if !acc.2 then none
  else
    let m := acc.1.maxVal
    if m = 0 then none
    else
      some
        { winter := jsRound (acc.1.winter / m * 100)
          spring := jsRound (acc.1.spring / m * 100)
          summer := jsRound (acc.1.summer / m * 100)
          autumn := jsRound (acc.1.autumn / m * 100)
          day := jsRound (acc.1.day / m * 100)
          night := jsRound (acc.1.night / m * 100) }

/-! ## Rating extraction (`extractRating`)

The loop over the four rating selectors reads, per selector, the first
defined of `content` attribute / `data-rating` attribute / element text and
applies `parseFloat`; the candidates are modelled as the list of parse
results in selector order (`none` for a `NaN` parse).  The first non-`NaN`
value is normalized: halved when above 5 (a 0–10 source scale), and rounded
to one decimal via `Math.round(x * 10) / 10`. -/

/-- `Math.round(x * 10) / 10`: round to one decimal place. -/
def roundTo1 (x : ℚ) : ℚ := (jsRound (x * 10) : ℚ) / 10

/-- The per-value normalization in the body of the `extractRating` loop. -/
def normalizeRating (q : ℚ) : ℚ :=
  if 5 < q then roundTo1 (q / 2) else roundTo1 q

/-- `extractRating($)` as a function of the per-selector parse results, in
selector order: first non-`NaN` parse wins and is normalized; `null` when
every selector fails to parse. -/
def extractRating : List (Option ℚ) → Option ℚ
  | [] => none
  | none :: rest => extractRating rest
  | some q :: _ => some (normalizeRating q)

/-! ## `scrapePerfume` validation and cache write

After a successful fetch that passed the block/rate-limit detection,
`scrapePerfume` assembles the record and then validates:
`if (!perfume.name || perfume.name.toLowerCase().includes('too many
requests')) throw INVALID_DATA`, `if (!perfume.brand) throw INVALID_DATA`,
and only then `cacheService.set(url, perfume, 86400)` followed by
`return perfume`. -/

/-- Error classification of `scrapePerfume`, per the substring tags the
worker loop switches on. -/
inductive ScrapeErr : Type
  | rateLimited
  | invalidData
  | other
deriving DecidableEq, Repr

/-- Character-list matching: does the second list start with the first? -/
def listStartsWith : List Char → List Char → Bool
  | [], _ => true
  | _ :: _, [] => false
  | p :: ps, c :: cs => p == c && listStartsWith ps cs

/-- Character-list substring search. -/
def listHasSub (pat : List Char) : List Char → Bool
  | [] => listStartsWith pat []
  | c :: cs => listStartsWith pat (c :: cs) || listHasSub pat cs

/-- JS `hay.includes(pat)` on strings. -/
def strIncludes (hay pat : String) : Bool := listHasSub pat.toList hay.toList

/-- JS `s.toLowerCase()` (ASCII case folding), kept kernel-evaluable by
mapping over the character list. -/
def strToLower (s : String) : String := String.mk (s.data.map Char.toLower)

/-- JS falsiness of an optional string (`null`/`undefined` and `""`). -/
def jsFalsyStr (o : Option String) : Bool :=
  match o with
  | none => true
  | some s => s == ""

/-- The block-page artifact `scrapePerfume` checks the extracted name for. -/
def blockArtifact : String := "too many requests"

/-- Modelled from the spec: `cacheService.set(url, record, ttl)` of the
Response Cache (§4.3), whose source file is not in the repository snapshot —
memoization keyed by URL, so `set` overwrites any entry for the same url. -/
def cacheSet {α : Type} (cache : List (String × α)) (url : String) (rec : α) :
    List (String × α) :=
  (url, rec) :: cache.filter fun p => p.1 != url

/-- The validation tail of `scrapePerfume` (after block detection): throws
`INVALID_DATA` when the extracted name is falsy or contains the block
artifact, or the extracted brand is falsy; otherwise writes the record into
the cache and returns it. -/
def scrapeFinish (url : String) (rec : PerfumeIn)
    (cache : List (String × PerfumeIn)) :
    Except ScrapeErr PerfumeIn × List (String × PerfumeIn) :=
  if jsFalsyStr rec.name ||
      strIncludes (strToLower (rec.name.getD "")) blockArtifact then
    (Except.error ScrapeErr.invalidData, cache)
  else if jsFalsyStr rec.brand then
    (Except.error ScrapeErr.invalidData, cache)
  else
    (Except.ok rec, cacheSet cache url rec)

/-! ## Helper lemmas -/

theorem jsFalsyStr_eq_true (o : Option String) :
    jsFalsyStr o = true ↔ o = none ∨ o = some "" := by
  cases o with
  | none => simp [jsFalsyStr]
  | some s => simp [jsFalsyStr, beq_iff_eq]

theorem jsFalsyStr_eq_false (o : Option String) :
    jsFalsyStr o = false ↔ o ≠ none ∧ o ≠ some "" := by
  rw [← Bool.not_eq_true, jsFalsyStr_eq_true]
  tauto

theorem orNullRat_ne_some_zero (o : Option ℚ) : orNullRat o ≠ some 0 := by
  cases o with
  | none => simp [orNullRat]
  | some r =>
      simp only [orNullRat]
      split
      · simp
      · simpa using by assumption

theorem coalesce_ne_some {α : Type} {x : α} {o₁ o₂ : Option α}
    (h₁ : o₁ ≠ some x) (h₂ : o₂ ≠ some x) : coalesce o₁ o₂ ≠ some x := by
  cases o₁ with
  | none => simpa [coalesce] using h₂
  | some v => simpa [coalesce] using h₁

/-! ## C3: crash recovery -/

/-- C3: after `resetStuck()` every entry that was `processing` is `pending`,
entries in any other status are completely unchanged, and the returned count
equals the number of entries that were `processing`. -/
theorem queueResetStuck_crash_recovery (q : QueueState) :
    (queueResetStuck q).2.length = q.length
    ∧ (∀ i : Nat, (queueResetStuck q).2[i]? =
        q[i]?.map fun e =>
          if e.status = QStatus.processing then { e with status := QStatus.pending } else e)
    ∧ (queueResetStuck q).1 = q.countP fun e => e.status = QStatus.processing := by
  refine ⟨by simp [queueResetStuck], ?_, ?_⟩
  · intro i
    simp only [queueResetStuck, List.getElem?_map]
    cases q[i]? with
    | none => rfl
    | some e => simp [beq_iff_eq]
  · simp only [queueResetStuck, List.countP_eq_length_filter]
    congr 1

/-! ## C5: rate-limit backoff policy -/

/-- C5 counterexample: the claim says every non-rate-limited iteration
outcome resets the consecutive-rate-limit counter to 0, but after a generic
(non-rate-limited, non-invalid-data) failure with counter 1 the counter is
not 0: the generic-error branch of `processQueue` never touches it. -/
theorem processIteration_counterexample :
    (processIteration 1 IterOutcome.otherError).1 ≠ 0 := by decide

/-- C5 (amended): on a `RateLimited` outcome the URL is re-marked pending,
the counter is incremented; on the 3rd hit the loop sleeps the 5-minute long
cooldown and resets the counter, otherwise it sleeps the 2-minute short
cooldown; in both cases the 15-second inter-request delay is not slept.
Success, already-in-catalog skip, no-data and `InvalidData` outcomes reset
the counter to 0, but a generic failure leaves the counter unchanged. -/
theorem processIteration_rate_limit_policy (crl : Nat) :
    (processIteration crl IterOutcome.rateLimited).2.mark = some QStatus.pending
    ∧ (processIteration crl IterOutcome.rateLimited).2.sleeps =
        (if crl + 1 ≥ maxRateLimitRetries then [longPauseMs] else [ratePauseMs])
    ∧ (processIteration crl IterOutcome.rateLimited).1 =
        (if crl + 1 ≥ maxRateLimitRetries then 0 else crl + 1)
    ∧ interRequestMs ∉ (processIteration crl IterOutcome.rateLimited).2.sleeps
    ∧ longPauseMs = 5 * 60 * 1000 ∧ ratePauseMs = 2 * 60 * 1000
    ∧ maxRateLimitRetries = 3 ∧ interRequestMs = 15000
    ∧ (processIteration crl IterOutcome.success).1 = 0
    ∧ (processIteration crl IterOutcome.skipExisting).1 = 0
    ∧ (processIteration crl IterOutcome.noData).1 = 0
    ∧ (processIteration crl IterOutcome.invalidData).1 = 0
    ∧ (processIteration crl IterOutcome.otherError).1 = crl := by
  by_cases h : 2 ≤ crl <;>
    simp [processIteration, h, longPauseMs, ratePauseMs, interRequestMs,
      maxRateLimitRetries]

/-! ## C9: InvalidData classification and cache atomicity -/

/-- C9: after a successful, non-blocked fetch, `scrapePerfume` raises
`INVALID_DATA` iff the extracted name is missing (JS-falsy) or its lowercase
form contains the block-page artifact "too many requests", or the extracted
brand is missing; on that error the cache is untouched, and on success the
record is written to the cache and returned. -/
theorem scrapeFinish_invalidData_spec (url : String) (rec : PerfumeIn)
    (cache : List (String × PerfumeIn)) :
    ((scrapeFinish url rec cache).1 = Except.error ScrapeErr.invalidData ↔
      (rec.name = none ∨ rec.name = some "" ∨
       strIncludes (strToLower (rec.name.getD "")) blockArtifact = true ∨
       rec.brand = none ∨ rec.brand = some ""))
    ∧ ((scrapeFinish url rec cache).1 = Except.error ScrapeErr.invalidData →
        (scrapeFinish url rec cache).2 = cache)
    ∧ (∀ r, (scrapeFinish url rec cache).1 = Except.ok r →
        r = rec ∧ (scrapeFinish url rec cache).2 = cacheSet cache url rec) := by
  by_cases hc1 :
      (jsFalsyStr rec.name || strIncludes (strToLower (rec.name.getD "")) blockArtifact) = true
  · have hd : rec.name = none ∨ rec.name = some "" ∨
        strIncludes (strToLower (rec.name.getD "")) blockArtifact = true ∨
        rec.brand = none ∨ rec.brand = some "" := by
      rcases (by simpa using hc1 : jsFalsyStr rec.name = true ∨
          strIncludes (strToLower (rec.name.getD "")) blockArtifact = true) with h | h
      · rcases (jsFalsyStr_eq_true _).mp h with h' | h'
        · exact Or.inl h'
        · exact Or.inr (Or.inl h')
      · exact Or.inr (Or.inr (Or.inl h))
    refine ⟨by simp [scrapeFinish, hc1, hd], fun _ => by simp [scrapeFinish, hc1], ?_⟩
    intro r hr
    simp [scrapeFinish, hc1] at hr
  · have hname := (jsFalsyStr_eq_false rec.name).mp (by
      rcases (by simpa using hc1 :
          jsFalsyStr rec.name = false ∧
          strIncludes (strToLower (rec.name.getD "")) blockArtifact = false) with ⟨h, _⟩
      exact h)
    have hart : strIncludes (strToLower (rec.name.getD "")) blockArtifact = false := by
      rcases (by simpa using hc1 :
          jsFalsyStr rec.name = false ∧
          strIncludes (strToLower (rec.name.getD "")) blockArtifact = false) with ⟨_, h⟩
      exact h
    by_cases hc2 : jsFalsyStr rec.brand = true
    · have hd : rec.name = none ∨ rec.name = some "" ∨
          strIncludes (strToLower (rec.name.getD "")) blockArtifact = true ∨
          rec.brand = none ∨ rec.brand = some "" := by
        rcases (jsFalsyStr_eq_true _).mp hc2 with h | h
        · exact Or.inr (Or.inr (Or.inr (Or.inl h)))
        · exact Or.inr (Or.inr (Or.inr (Or.inr h)))
      refine ⟨by simp [scrapeFinish, hc1, hc2, hd], fun _ => by simp [scrapeFinish, hc1, hc2], ?_⟩
      intro r hr
      simp [scrapeFinish, hc1, hc2] at hr
    · have hbrand := (jsFalsyStr_eq_false rec.brand).mp (by simpa using hc2)
      refine ⟨?_, ?_, ?_⟩
      · simp only [scrapeFinish, hc1, hc2]
        constructor
        · intro h
          simp at h
        · intro hd
          rcases hd with h | h | h | h | h
          · exact absurd h hname.1
          · exact absurd h hname.2
          · rw [hart] at h; exact absurd h (by simp)
          · exact absurd h hbrand.1
          · exact absurd h hbrand.2
      · intro h
        simp [scrapeFinish, hc1, hc2] at h
      · intro r hr
        simp only [scrapeFinish, hc1, hc2] at hr ⊢
        simp at hr
        exact ⟨hr.symm, by simp [scrapeFinish, hc1, hc2]⟩

/-! ## C10: falsy coercion of rating/year in `dataStore.add` -/

/-- C10: `dataStore.add` binds `rating || null` and `year || null`, so a
rating (or year) of exactly 0 is persisted as NULL; a record whose rating
column is 0 is never produced by `add` (insert or merge), and a rating of 0
is indistinguishable from an absent rating in the bound parameters. -/
theorem dataStoreAdd_elim (table : List PerfumeRow) (p : PerfumeIn) :
    ((dataStoreAdd table p).1 = table ++ [insertRow (toParams p)]
      ∧ (dataStoreAdd table p).2 = insertRow (toParams p))
    ∨ (∃ u, (toParams p).sourceUrl = some u ∧ ∃ old,
        table.find? (fun r => r.sourceUrl == some u) = some old
        ∧ (dataStoreAdd table p).1 =
            table.map (fun r => if (r.sourceUrl == some u) = true
              then mergeOnConflict r (toParams p) else r)
        ∧ (dataStoreAdd table p).2 = mergeOnConflict old (toParams p)) := by
  simp only [dataStoreAdd]
  split
  · exact Or.inl ⟨rfl, rfl⟩
  · next u heq =>
      split
      · exact Or.inl ⟨rfl, rfl⟩
      · next old hfind => exact Or.inr ⟨u, heq, old, hfind, rfl, rfl⟩

theorem add_falsy_zero_spec :
    (∀ p : PerfumeIn, p.rating = some 0 → (toParams p).rating = none)
    ∧ (∀ p : PerfumeIn, p.year = some 0 → (toParams p).year = none)
    ∧ (∀ p : PerfumeIn,
        toParams { p with rating := some 0 } = toParams { p with rating := none }
        ∧ toParams { p with year := some 0 } = toParams { p with year := none })
    ∧ (∀ (table : List PerfumeRow) (p : PerfumeIn),
        (∀ r ∈ table, r.rating ≠ some 0) →
        (∀ r ∈ (dataStoreAdd table p).1, r.rating ≠ some 0)
        ∧ (dataStoreAdd table p).2.rating ≠ some 0) := by
  have hpar : ∀ p : PerfumeIn, (toParams p).rating ≠ some 0 := fun p =>
    orNullRat_ne_some_zero p.rating
  have hins : ∀ p : PerfumeIn, (insertRow (toParams p)).rating ≠ some 0 := fun p =>
    hpar p
  have hmerge : ∀ (p : PerfumeIn) (r : PerfumeRow), r.rating ≠ some 0 →
      (mergeOnConflict r (toParams p)).rating ≠ some 0 := fun p r hr =>
    coalesce_ne_some (hpar p) hr
  refine ⟨?_, ?_, ?_, ?_⟩
  · intro p hp; simp [toParams, orNullRat, hp]
  · intro p hp; simp [toParams, orNullInt, hp]
  · intro p; exact ⟨by simp [toParams, orNullRat], by simp [toParams, orNullInt]⟩
  · intro table p hinv
    rcases dataStoreAdd_elim table p with ⟨h1, h2⟩ | ⟨u, _, old, hfind, h1, h2⟩
    · refine ⟨?_, by rw [h2]; exact hins p⟩
      intro r hr
      rw [h1] at hr
      rcases List.mem_append.mp hr with h | h
      · exact hinv r h
      · rcases List.mem_singleton.mp h with rfl
        exact hins p
    · refine ⟨?_, by
        rw [h2]; exact hmerge p old (hinv old (List.mem_of_find?_eq_some hfind))⟩
      intro r hr
      rw [h1] at hr
      rcases List.mem_map.mp hr with ⟨r0, hr0, rfl⟩
      by_cases hru : (r0.sourceUrl == some u) = true
      · simpa [hru] using hmerge p r0 (hinv r0 hr0)
      · simpa [hru] using hinv r0 hr0

/-- A concrete scraped record, used to instantiate the theorems. -/
def samplePerfume : PerfumeIn where
  name := some "Aventus"
  brand := some "Creed"
  year := some 0
  perfumer := some "Olivier Creed"
  perfumerImageUrl := none
  gender := some "masculine"
  concentration := some "Eau de Parfum"
  notes := some { top := ["bergamot"], heart := ["birch"], base := ["musk"] }
  accords := some ["fruity", "woody"]
  description := none
  imageUrl := none
  rating := some 0
  sillage := none
  longevity := none
  projection := none
  similarPerfumes := none
  seasonUsage := none
  sourceUrl := some "https://example.com/aventus"
  scrapedAt := some "2024-01-01T00:00:00Z"

/-- C5 witness: with two rate limits already counted the third sleeps the
long cooldown and resets the counter; with none counted the first sleeps the
short cooldown and sets the counter to 1. -/
theorem processIteration_policy_witness :
    (processIteration 2 IterOutcome.rateLimited).2.sleeps = [longPauseMs]
    ∧ (processIteration 2 IterOutcome.rateLimited).1 = 0
    ∧ (processIteration 0 IterOutcome.rateLimited).2.sleeps = [ratePauseMs]
    ∧ (processIteration 0 IterOutcome.rateLimited).1 = 1 := by
  have h2 := processIteration_rate_limit_policy 2
  have h0 := processIteration_rate_limit_policy 0
  refine ⟨?_, ?_, ?_, ?_⟩
  · simpa [maxRateLimitRetries] using h2.2.1
  · simpa [maxRateLimitRetries] using h2.2.2.1
  · simpa [maxRateLimitRetries] using h0.2.1
  · simpa [maxRateLimitRetries] using h0.2.2.1

/-- C9 witness: a record with a missing brand is rejected as `INVALID_DATA`
with the cache untouched; the sample record passes validation and is written
to the cache. -/
theorem scrapeFinish_invalidData_witness :
    (scrapeFinish "u" { samplePerfume with brand := none } []).1 =
        Except.error ScrapeErr.invalidData
    ∧ (scrapeFinish "u" { samplePerfume with brand := none } []).2 = []
    ∧ samplePerfume = samplePerfume
    ∧ (scrapeFinish "u" samplePerfume []).2 = cacheSet [] "u" samplePerfume := by
  have h := scrapeFinish_invalidData_spec "u" { samplePerfume with brand := none } []
  have herr : (scrapeFinish "u" { samplePerfume with brand := none } []).1 =
      Except.error ScrapeErr.invalidData :=
    h.1.mpr (Or.inr (Or.inr (Or.inr (Or.inl rfl))))
  have h2 := scrapeFinish_invalidData_spec "u" samplePerfume []
  exact ⟨herr, h.2.1 herr, h2.2.2 samplePerfume (by rfl)⟩

/-- C10 witness: the sample record has rating 0, its bound rating parameter
is NULL, and adding it to an empty catalog yields no row with rating 0. -/
theorem add_falsy_zero_witness :
    (samplePerfume.rating = some 0 ∧ (toParams samplePerfume).rating = none)
    ∧ (∀ r ∈ ([] : List PerfumeRow), r.rating ≠ some 0)
    ∧ (∀ r ∈ (dataStoreAdd [] samplePerfume).1, r.rating ≠ some 0)
    ∧ (dataStoreAdd [] samplePerfume).2.rating ≠ some 0 :=
  ⟨⟨rfl, add_falsy_zero_spec.1 samplePerfume rfl⟩,
   by simp,
   (add_falsy_zero_spec.2.2.2 [] samplePerfume (by simp)).1,
   (add_falsy_zero_spec.2.2.2 [] samplePerfume (by simp)).2⟩

/-! ## C8: rating normalization -/

/-- C8: `extractRating` returns the first parseable numeric value among the
ordered rating selectors; a parsed value above 5 is treated as a 0–10 scale
and halved; the result is always rounded to one decimal place; when no
selector yields a number the result is null. -/
theorem extractRating_spec (cands : List (Option ℚ)) :
    (cands.findSome? id = none → extractRating cands = none)
    ∧ (∀ q : ℚ, cands.findSome? id = some q →
        extractRating cands = some (roundTo1 (if 5 < q then q / 2 else q)))
    ∧ (∀ r : ℚ, extractRating cands = some r → ∃ z : ℤ, r = (z : ℚ) / 10) := by
  induction cands with
  | nil =>
      refine ⟨fun _ => rfl, fun q h => ?_, fun r h => ?_⟩
      · simp [List.findSome?_nil] at h
      · simp [extractRating] at h
  | cons c rest ih =>
      cases c with
      | none =>
          refine ⟨?_, ?_, ?_⟩
          · intro h
            rw [List.findSome?_cons] at h
            exact ih.1 h
          · intro q h
            rw [List.findSome?_cons] at h
            exact ih.2.1 q h
          · intro r h
            exact ih.2.2 r h
      | some v =>
          refine ⟨?_, ?_, ?_⟩
          · intro h
            rw [List.findSome?_cons] at h
            simp [id] at h
          · intro q h
            rw [List.findSome?_cons] at h
            simp only [id] at h
            cases h
            simp [extractRating, normalizeRating]
            split
            · rfl
            · rfl
          · intro r h
            simp only [extractRating, normalizeRating] at h
            have : ∃ x : ℚ, r = roundTo1 x := by
              rcases h with h
              split at h
              · exact ⟨v / 2, by simpa using h.symm⟩
              · exact ⟨v, by simpa using h.symm⟩
            rcases this with ⟨x, rfl⟩
            exact ⟨jsRound (x * 10), rfl⟩

/-- C8 witness: an 8.4 (0–10 scale) parse yields 4.2, a 4.2 parse yields 4.2
unchanged (earlier unparseable selectors are skipped), and a document with
no parseable rating yields null. -/
theorem extractRating_witness :
    extractRating [none, some (42/5)] = some (21/5)
    ∧ extractRating [some (21/5)] = some (21/5)
    ∧ extractRating [none, none, none, none] = none := by
  have h1 := (extractRating_spec [none, some (42/5)]).2.1 (42/5) rfl
  have h2 := (extractRating_spec [some (21/5)]).2.1 (21/5) rfl
  have h3 := (extractRating_spec [none, none, none, none]).1 rfl
  refine ⟨?_, ?_, h3⟩
  · rw [h1]
    norm_num [roundTo1, jsRound]
  · rw [h2]
    norm_num [roundTo1, jsRound]

/-! ## C7: season/time-of-day normalization -/

/-- Read one bucket of the normalized season map. -/
def SeasonMap.get (m : SeasonMap) : Season → ℤ
  | Season.winter => m.winter
  | Season.spring => m.spring
  | Season.summer => m.summer
  | Season.autumn => m.autumn
  | Season.day => m.day
  | Season.night => m.night

/-- Specification-side raw count of a bucket: the maximum over the positive
vote observations for that bucket (0 if there are none). -/
def rawCount (obs : List (Season × ℚ)) (s : Season) : ℚ :=
  ((obs.filter fun o => o.1 == s && decide (0 < o.2)).map Prod.snd).foldl max 0

/-- Specification-side maximum raw count over the six buckets. -/
def maxRawCount (obs : List (Season × ℚ)) : ℚ :=
  max (rawCount obs Season.winter) (max (rawCount obs Season.spring)
    (max (rawCount obs Season.summer) (max (rawCount obs Season.autumn)
      (max (rawCount obs Season.day) (rawCount obs Season.night)))))

theorem seasonVotes_get_bump (v : SeasonVotes) (s s' : Season) (n : ℚ) :
    (v.bump s' n).get s = if s = s' then max (v.get s) n else v.get s := by
  cases s <;> cases s' <;> simp [SeasonVotes.bump, SeasonVotes.get]

theorem init_le_foldl_max {α : Type} [LinearOrder α] (l : List α) (init : α) :
    init ≤ l.foldl max init := by
  induction l generalizing init with
  | nil => exact le_refl init
  | cons a rest ih => exact le_trans (le_max_left _ _) (ih (max init a))

theorem le_foldl_max {α : Type} [LinearOrder α] :
    ∀ (l : List α) (init x : α), x ∈ l → x ≤ l.foldl max init
  | a :: rest, init, x, hx => by
      rcases List.mem_cons.mp hx with rfl | hx
      · exact le_trans (le_max_right init x) (init_le_foldl_max rest (max init x))
      · exact le_foldl_max rest (max init a) x hx

theorem seasonAccumulate_get (obs : List (Season × ℚ)) (acc : SeasonVotes × Bool)
    (s : Season) :
    ((obs.foldl (fun a o => if 0 < o.2 then (a.1.bump o.1 o.2, true) else a) acc).1).get s =
      ((obs.filter fun o => o.1 == s && decide (0 < o.2)).map Prod.snd).foldl max
        (acc.1.get s) := by
  induction obs generalizing acc with
  | nil => rfl
  | cons o rest ih =>
      rw [List.foldl_cons, List.filter_cons]
      by_cases hpos : 0 < o.2
      · have hdec : decide (0 < o.2) = true := by simp [hpos]
        by_cases hs : o.1 = s
        · have hbeq : (o.1 == s) = true := by simp [hs]
          rw [if_pos hpos, ih, hbeq, hdec]
          simp only [Bool.and_self, if_true, List.map_cons, List.foldl_cons]
          rw [seasonVotes_get_bump, if_pos hs.symm]
        · have hbeq : (o.1 == s) = false := by simp [hs]
          rw [if_pos hpos, ih, hbeq]
          simp only [Bool.false_and, Bool.false_eq_true, if_false]
          rw [seasonVotes_get_bump, if_neg (fun h => hs h.symm)]
      · have hdec : decide (0 < o.2) = false := by simp [hpos]
        rw [if_neg hpos, ih, hdec]
        simp only [Bool.and_false, Bool.false_eq_true, if_false]

theorem seasonAccumulate_found (obs : List (Season × ℚ)) (acc : SeasonVotes × Bool) :
    (obs.foldl (fun a o => if 0 < o.2 then (a.1.bump o.1 o.2, true) else a) acc).2 =
      (acc.2 || obs.any fun o => decide (0 < o.2)) := by
  induction obs generalizing acc with
  | nil => simp
  | cons o rest ih =>
      by_cases hpos : 0 < o.2
      · simp [hpos, ih]
      · simp [hpos, ih]

theorem rawCount_le_maxRawCount (obs : List (Season × ℚ)) (s : Season) :
    rawCount obs s ≤ maxRawCount obs := by
  cases s <;> simp [maxRawCount, le_max_iff, le_refl]

/-- C7: when at least one of the six buckets has a positive vote signal,
`extractSeasonUsage` returns all six buckets, each normalized to
`round(100 × raw count / maximum raw count)`; when no bucket has any signal
it returns null rather than a zeroed map. -/
theorem extractSeasonUsage_spec (obs : List (Season × ℚ)) :
    ((∃ o ∈ obs, 0 < o.2) →
      ∃ m : SeasonMap, extractSeasonUsage obs = some m
        ∧ ∀ s : Season,
            m.get s = jsRound (100 * rawCount obs s / maxRawCount obs))
    ∧ ((∀ o ∈ obs, ¬ 0 < o.2) → extractSeasonUsage obs = none) := by
  constructor
  · rintro ⟨o, ho, hpos⟩
    have hget : ∀ s, (seasonAccumulate obs).1.get s = rawCount obs s := by
      intro s
      have h := seasonAccumulate_get obs (SeasonVotes.zero, false) s
      have hz : ((SeasonVotes.zero, false) : SeasonVotes × Bool).1.get s = 0 := by
        cases s <;> rfl
      rw [hz] at h
      exact h
    have hfound : (seasonAccumulate obs).2 = true := by
      rw [seasonAccumulate, seasonAccumulate_found]
      simp only [Bool.false_or, List.any_eq_true]
      exact ⟨o, ho, by simpa using hpos⟩
    have hmax : (seasonAccumulate obs).1.maxVal = maxRawCount obs := by
      have hw := hget Season.winter
      have hsp := hget Season.spring
      have hsu := hget Season.summer
      have hau := hget Season.autumn
      have hd := hget Season.day
      have hn := hget Season.night
      simp only [SeasonVotes.get] at hw hsp hsu hau hd hn
      rw [SeasonVotes.maxVal, hw, hsp, hsu, hau, hd, hn, maxRawCount]
    have hmaxpos : 0 < maxRawCount obs := by
      have h1 : o.2 ≤ rawCount obs o.1 := by
        apply le_foldl_max
        exact List.mem_map.mpr ⟨o, List.mem_filter.mpr ⟨ho, by simp [hpos]⟩, rfl⟩
      exact lt_of_lt_of_le hpos (le_trans h1 (rawCount_le_maxRawCount obs o.1))
    have hmaxne : ¬ (seasonAccumulate obs).1.maxVal = 0 := by
      rw [hmax]
      exact ne_of_gt hmaxpos
    refine ⟨{ winter := jsRound ((seasonAccumulate obs).1.winter / (seasonAccumulate obs).1.maxVal * 100),
              spring := jsRound ((seasonAccumulate obs).1.spring / (seasonAccumulate obs).1.maxVal * 100),
              summer := jsRound ((seasonAccumulate obs).1.summer / (seasonAccumulate obs).1.maxVal * 100),
              autumn := jsRound ((seasonAccumulate obs).1.autumn / (seasonAccumulate obs).1.maxVal * 100),
              day := jsRound ((seasonAccumulate obs).1.day / (seasonAccumulate obs).1.maxVal * 100),
              night := jsRound ((seasonAccumulate obs).1.night / (seasonAccumulate obs).1.maxVal * 100) },
            ?_, ?_⟩
    · simp only [extractSeasonUsage, hfound, Bool.not_true, Bool.false_eq_true,
        if_false, if_neg hmaxne]
    · intro s
      have hs' := hget s
      cases s <;>
        simp only [SeasonVotes.get] at hs' <;>
        simp only [extractSeasonUsage, hfound, Bool.not_true, Bool.false_eq_true,
          if_false, if_neg hmaxne, SeasonMap.get] <;>
        rw [hs', hmax] <;>
        congr 1 <;>
        ring
  · intro hnone
    have hfound : (seasonAccumulate obs).2 = false := by
      rw [seasonAccumulate, seasonAccumulate_found]
      simp only [Bool.false_or, List.any_eq_false]
      intro o ho
      simpa using hnone o ho
    simp only [extractSeasonUsage, hfound, Bool.not_false, if_true]

/-- C7 witness: raw votes summer 120 and winter 40 normalize to summer 100
and winter 33 (rounded ratio to the maximum), all other buckets 0; an
observation-free document yields null, not a zeroed map. -/
theorem extractSeasonUsage_witness :
    (∃ o ∈ [(Season.summer, (120:ℚ)), (Season.winter, 40)], 0 < o.2)
    ∧ extractSeasonUsage [(Season.summer, (120:ℚ)), (Season.winter, 40)] =
        some { winter := 33, spring := 0, summer := 100, autumn := 0, day := 0, night := 0 }
    ∧ extractSeasonUsage ([] : List (Season × ℚ)) = none := by
  have hex : ∃ o ∈ [(Season.summer, (120:ℚ)), (Season.winter, 40)], 0 < o.2 :=
    ⟨(Season.summer, 120), by simp, by norm_num⟩
  obtain ⟨m, hm, hv⟩ :=
    (extractSeasonUsage_spec [(Season.summer, (120:ℚ)), (Season.winter, 40)]).1 hex
  have hacc : seasonAccumulate [(Season.summer, (120:ℚ)), (Season.winter, 40)] =
      ({ winter := 40, spring := 0, summer := 120, autumn := 0, day := 0, night := 0 }, true) := by
    rw [seasonAccumulate]
    rw [List.foldl_cons, if_pos (by norm_num : (0:ℚ) < ((Season.summer, (120:ℚ))).2)]
    rw [List.foldl_cons, if_pos (by norm_num : (0:ℚ) < ((Season.winter, (40:ℚ))).2)]
    rw [List.foldl_nil]
    norm_num [SeasonVotes.bump, SeasonVotes.zero, max_def]
  have hnone := (extractSeasonUsage_spec ([] : List (Season × ℚ))).2 (by simp)
  refine ⟨hex, ?_, hnone⟩
  simp only [extractSeasonUsage, hacc, Bool.not_true, Bool.false_eq_true, if_false]
  norm_num [SeasonVotes.maxVal, max_def, jsRound]

/-! ## C4: idempotent enqueue -/

theorem queueEnqueue_fold (urls : List String) (now k : Nat) (q0 : QueueState) :
    ∃ added : List QueueEntry,
      urls.foldl (fun acc u => if (acc.2.map QueueEntry.url).contains u then acc
          else (acc.1 + 1, acc.2 ++ [newEntry u now])) (k, q0)
        = (k + added.length, q0 ++ added)
      ∧ (∀ e ∈ added, e.status = QStatus.pending ∧ e.retryCount = 0
          ∧ e.errorMsg = none ∧ e.createdAt = now
          ∧ e.url ∈ urls ∧ e.url ∉ q0.map QueueEntry.url)
      ∧ (∀ u, u ∈ (q0 ++ added).map QueueEntry.url ↔
          u ∈ q0.map QueueEntry.url ∨ u ∈ urls)
      ∧ ((q0.map QueueEntry.url).Nodup → ((q0 ++ added).map QueueEntry.url).Nodup) := by
  induction urls generalizing k q0 with
  | nil => exact ⟨[], by simp, by simp, by simp, by simp⟩
  | cons u rest ih =>
      rw [List.foldl_cons]
      by_cases hc : ((q0.map QueueEntry.url).contains u) = true
      · rw [if_pos hc]
        obtain ⟨added, heq, hprops, hmem, hnd⟩ := ih k q0
        have hu : u ∈ q0.map QueueEntry.url := by simpa using hc
        refine ⟨added, heq, ?_, ?_, hnd⟩
        · intro e he
          obtain ⟨h1, h2, h3, h4, h5, h6⟩ := hprops e he
          exact ⟨h1, h2, h3, h4, List.mem_cons_of_mem _ h5, h6⟩
        · intro v
          rw [hmem v]
          constructor
          · rintro (h | h)
            · exact Or.inl h
            · exact Or.inr (List.mem_cons_of_mem _ h)
          · rintro (h | h)
            · exact Or.inl h
            · rcases List.mem_cons.mp h with rfl | h
              · exact Or.inl hu
              · exact Or.inr h
      · rw [if_neg hc]
        obtain ⟨added, heq, hprops, hmem, hnd⟩ := ih (k + 1) (q0 ++ [newEntry u now])
        have hu : u ∉ q0.map QueueEntry.url := by simpa using hc
        refine ⟨newEntry u now :: added, ?_, ?_, ?_, ?_⟩
        · rw [heq]
          simp only [Prod.mk.injEq, List.length_cons, List.append_assoc,
            List.singleton_append]
          exact ⟨by omega, trivial⟩
        · intro e he
          rcases List.mem_cons.mp he with rfl | he
          · exact ⟨rfl, rfl, rfl, rfl, List.mem_cons_self _ _, hu⟩
          · obtain ⟨h1, h2, h3, h4, h5, h6⟩ := hprops e he
            refine ⟨h1, h2, h3, h4, List.mem_cons_of_mem _ h5, fun hin => h6 ?_⟩
            simp only [List.map_append, List.mem_append]
            exact Or.inl hin
        · intro v
          have h := hmem v
          simp only [List.map_append, List.mem_append, List.map_cons, List.mem_cons,
            List.map_nil, List.mem_singleton, newEntry, List.not_mem_nil] at h ⊢
          tauto
        · intro hq0
          have hnd1 : ((q0 ++ [newEntry u now]).map QueueEntry.url).Nodup := by
            simp only [List.map_append, List.map_cons, List.map_nil, newEntry]
            rw [List.nodup_append]
            refine ⟨hq0, List.nodup_singleton u, ?_⟩
            intro a ha hb
            rcases List.mem_singleton.mp hb with rfl
            exact hu ha
          have := hnd hnd1
          simpa [List.append_assoc] using this

theorem queueEnqueue_noop_fold (urls : List String) (now k : Nat) (q0 : QueueState)
    (h : ∀ u ∈ urls, u ∈ q0.map QueueEntry.url) :
    urls.foldl (fun acc u => if (acc.2.map QueueEntry.url).contains u then acc
        else (acc.1 + 1, acc.2 ++ [newEntry u now])) (k, q0) = (k, q0) := by
  induction urls with
  | nil => rfl
  | cons u rest ih =>
      rw [List.foldl_cons, if_pos (by simpa using h u (List.mem_cons_self _ _))]
      exact ih fun v hv => h v (List.mem_cons_of_mem _ hv)

/-- C4: `enqueue` appends exactly one fresh `pending` entry (with the shared
`NOW()` timestamp and default counters) per URL not already present, leaves
every existing row untouched, returns the number of rows actually added,
keeps urls unique (one queue entry per URL, in particular when a URL appears
twice in the batch), and enqueuing the same URLs again adds nothing. -/
theorem queueEnqueue_idempotent (urls : List String) (now now2 : Nat) (q : QueueState)
    (hnd : (q.map QueueEntry.url).Nodup) :
    ∃ added : List QueueEntry,
      queueEnqueue urls now q = (added.length, q ++ added)
      ∧ (∀ e ∈ added, e.status = QStatus.pending ∧ e.retryCount = 0
          ∧ e.errorMsg = none ∧ e.createdAt = now
          ∧ e.url ∈ urls ∧ e.url ∉ q.map QueueEntry.url)
      ∧ ((q ++ added).map QueueEntry.url).Nodup
      ∧ (∀ u, u ∈ (q ++ added).map QueueEntry.url ↔
          u ∈ q.map QueueEntry.url ∨ u ∈ urls)
      ∧ (∀ u ∈ urls, ((q ++ added).filter fun e => e.url == u).length = 1)
      ∧ queueEnqueue urls now2 (q ++ added) = (0, q ++ added) := by
  obtain ⟨added, heq, hprops, hmem, hndi⟩ := queueEnqueue_fold urls now 0 q
  have hnd2 := hndi hnd
  refine ⟨added, by rw [queueEnqueue, heq, Nat.zero_add], hprops, hnd2, hmem, ?_, ?_⟩
  · intro u hu
    have hmem2 : u ∈ (q ++ added).map QueueEntry.url := (hmem u).mpr (Or.inr hu)
    have hcount : ((q ++ added).map QueueEntry.url).count u = 1 :=
      List.count_eq_one_of_mem hnd2 hmem2
    calc ((q ++ added).filter fun e => e.url == u).length
        = (q ++ added).countP (fun e => e.url == u) :=
          (List.countP_eq_length_filter _ _).symm
      _ = ((q ++ added).map QueueEntry.url).countP (fun v => v == u) :=
          (List.countP_map (fun v => v == u) QueueEntry.url (q ++ added)).symm
      _ = 1 := hcount
  · exact queueEnqueue_noop_fold urls now2 0 (q ++ added)
      fun u hu => (hmem u).mpr (Or.inr hu)

/-- C4 witness: starting from an empty queue, enqueuing
`["a", "b", "a"]` adds entries satisfying the enqueue contract, and
re-enqueuing the same list is a no-op. -/
theorem queueEnqueue_idempotent_witness :
    ((([] : QueueState)).map QueueEntry.url).Nodup
    ∧ ∃ added : List QueueEntry,
      queueEnqueue ["a", "b", "a"] 7 [] = (added.length, [] ++ added)
      ∧ (∀ e ∈ added, e.status = QStatus.pending ∧ e.retryCount = 0
          ∧ e.errorMsg = none ∧ e.createdAt = 7
          ∧ e.url ∈ ["a", "b", "a"] ∧ e.url ∉ ([] : QueueState).map QueueEntry.url)
      ∧ ((([] : QueueState) ++ added).map QueueEntry.url).Nodup
      ∧ (∀ u, u ∈ (([] : QueueState) ++ added).map QueueEntry.url ↔
          u ∈ ([] : QueueState).map QueueEntry.url ∨ u ∈ ["a", "b", "a"])
      ∧ (∀ u ∈ ["a", "b", "a"],
          ((([] : QueueState) ++ added).filter fun e => e.url == u).length = 1)
      ∧ queueEnqueue ["a", "b", "a"] 9 (([] : QueueState) ++ added) =
          (0, ([] : QueueState) ++ added) :=
  ⟨by simp, queueEnqueue_idempotent ["a", "b", "a"] 7 9 [] (by simp)⟩

/-! ## C1: claim exclusivity of dequeue -/

theorem queueDequeue_elim (q : QueueState) :
    ((queueDequeue q).1 = none ∧ (queueDequeue q).2 = q
      ∧ (q.filter fun e => e.status == QStatus.pending) = [])
    ∨ (∃ sel,
        (q.filter fun e => e.status == QStatus.pending).argmin QueueEntry.createdAt
          = some sel
        ∧ (queueDequeue q).1 = some sel.url
        ∧ (queueDequeue q).2 = q.map fun e =>
            if e.url == sel.url then { e with status := QStatus.processing } else e) := by
  unfold queueDequeue
  split
  · next h => exact Or.inl ⟨rfl, rfl, List.argmin_eq_none.mp h⟩
  · next sel h => exact Or.inr ⟨sel, h, rfl, rfl⟩

theorem queueDequeue_urls (q : QueueState) :
    (queueDequeue q).2.map QueueEntry.url = q.map QueueEntry.url := by
  rcases queueDequeue_elim q with ⟨_, h2, _⟩ | ⟨sel, _, _, h2⟩
  · rw [h2]
  · rw [h2, List.map_map]
    apply List.map_congr_left
    intro e _
    by_cases he : (e.url == sel.url) = true <;> simp [Function.comp, he]

theorem queueDequeue_none_iff (q : QueueState) :
    (queueDequeue q).1 = none ↔ pendingUrls q = [] := by
  rcases queueDequeue_elim q with ⟨h1, _, h3⟩ | ⟨sel, hmin, h1, _⟩
  · simp [h1, pendingUrls, h3]
  · simp only [h1]
    constructor
    · intro h; cases h
    · intro h
      exfalso
      have : (q.filter fun e => e.status == QStatus.pending) = [] :=
        List.map_eq_nil_iff.mp h
      rw [this] at hmin
      simp [List.argmin] at hmin

theorem pendingUrls_update :
    ∀ (q : QueueState) (u : String),
      (q.map QueueEntry.url).Nodup →
      (∃ sel ∈ q, sel.url = u ∧ sel.status = QStatus.pending) →
      ((q.map fun e => if e.url == u then { e with status := QStatus.processing } else e).filter
          fun e => e.status == QStatus.pending).map QueueEntry.url
        = ((q.filter fun e => e.status == QStatus.pending).map QueueEntry.url).erase u
  | [], u, _, hsel => by rcases hsel with ⟨sel, h, _⟩; cases h
  | e :: rest, u, hnd, hsel => by
      rw [List.map_cons, List.nodup_cons] at hnd
      obtain ⟨hhead, hrest⟩ := hnd
      by_cases heu : e.url = u
      · have hepend : e.status = QStatus.pending := by
          rcases hsel with ⟨sel, hselmem, hselurl, hselpend⟩
          rcases List.mem_cons.mp hselmem with rfl | hmem
          · exact hselpend
          · exact absurd (List.mem_map.mpr ⟨sel, hmem, by rw [hselurl, heu]⟩) hhead
        have hrest_id :
            rest.map (fun x => if x.url == u then { x with status := QStatus.processing } else x)
              = rest := by
          conv_rhs => rw [← List.map_id rest]
          apply List.map_congr_left
          intro x hx
          have hxu : (x.url == u) = false := by
            simp only [beq_eq_false_iff_ne, ne_eq]
            intro hcontra
            exact hhead (by rw [heu]; exact hcontra ▸ List.mem_map.mpr ⟨x, hx, rfl⟩)
          simp [hxu]
        have hcond : (e.url == u) = true := by simp [heu]
        have hptrue : (e.status == QStatus.pending) = true := by simp [hepend]
        simp only [List.map_cons, hcond, if_true, hrest_id]
        have hpfalse :
            (({ e with status := QStatus.processing } : QueueEntry).status
              == QStatus.pending) = false := rfl
        simp only [List.filter_cons, hpfalse, hptrue, if_true, Bool.false_eq_true,
          if_false, List.map_cons]
        rw [heu, List.erase_cons_head]
      · have hcond : (e.url == u) = false := by simp [heu]
        have hselrest : ∃ sel ∈ rest, sel.url = u ∧ sel.status = QStatus.pending := by
          rcases hsel with ⟨sel, hselmem, hselurl, hselpend⟩
          rcases List.mem_cons.mp hselmem with rfl | hmem
          · exact absurd hselurl heu
          · exact ⟨sel, hmem, hselurl, hselpend⟩
        have ih := pendingUrls_update rest u hrest hselrest
        simp only [List.map_cons, hcond, Bool.false_eq_true, if_false]
        by_cases hep : (e.status == QStatus.pending) = true
        · simp only [List.filter_cons, hep, if_true, List.map_cons, ih]
          rw [List.erase_cons_tail (by simp [heu])]
        · have hep' : (e.status == QStatus.pending) = false := by
            simpa using hep
          simp only [List.filter_cons, hep', Bool.false_eq_true, if_false, ih]

theorem pendingUrls_dequeue (q : QueueState) (u : String)
    (hnd : (q.map QueueEntry.url).Nodup)
    (h : (queueDequeue q).1 = some u) :
    pendingUrls (queueDequeue q).2 = (pendingUrls q).erase u := by
  rcases queueDequeue_elim q with ⟨h1, _, _⟩ | ⟨sel, hmin, h1, h2⟩
  · rw [h1] at h; cases h
  · rw [h1] at h
    injection h with h
    have hself := List.argmin_mem hmin
    rw [List.mem_filter] at hself
    obtain ⟨hselq, hselpend⟩ := hself
    rw [h2, ← h]
    simp only [pendingUrls]
    exact pendingUrls_update q sel.url hnd
      ⟨sel, hselq, rfl, by simpa using hselpend⟩

theorem dequeueMany_perm :
    ∀ (N : Nat) (q : QueueState), (q.map QueueEntry.url).Nodup →
      (pendingUrls q).length ≤ N →
      List.Perm (dequeueMany N q).1 (pendingUrls q)
  | 0, q, _, hlen => by
      have hemp : pendingUrls q = [] := List.length_eq_zero.mp (Nat.le_zero.mp hlen)
      simp [dequeueMany, hemp]
  | N + 1, q, hnd, hlen => by
      rcases hdq : queueDequeue q with ⟨fst, q'⟩
      cases fst with
      | none =>
          have hpend : pendingUrls q = [] :=
            (queueDequeue_none_iff q).mp (by rw [hdq])
          simp only [dequeueMany, hdq, hpend]
          exact List.Perm.refl []
      | some u =>
          have hufst : (queueDequeue q).1 = some u := by rw [hdq]
          have humem : u ∈ pendingUrls q := by
            rcases queueDequeue_elim q with ⟨h1, _, _⟩ | ⟨sel, hmin, h1, _⟩
            · rw [h1] at hufst; cases hufst
            · rw [h1] at hufst
              injection hufst with hufst
              rw [← hufst]
              exact List.mem_map.mpr ⟨sel, List.argmin_mem hmin, rfl⟩
          have hq'pend : pendingUrls q' = (pendingUrls q).erase u := by
            have := pendingUrls_dequeue q u hnd hufst
            rwa [hdq] at this
          have hnd' : (q'.map QueueEntry.url).Nodup := by
            have := queueDequeue_urls q
            rw [hdq] at this
            rwa [this]
          have hlen' : (pendingUrls q').length ≤ N := by
            rw [hq'pend, List.length_erase_of_mem humem]
            have hpos : 1 ≤ (pendingUrls q).length := List.length_pos.mpr
              (fun hemp => by simp [hemp] at humem)
            omega
          have ih := dequeueMany_perm N q' hnd' hlen'
          have hstep : (dequeueMany (N + 1) q).1 = u :: (dequeueMany N q').1 := by
            simp only [dequeueMany, hdq]
          rw [hstep]
          have h1 : List.Perm (dequeueMany N q').1 ((pendingUrls q).erase u) := by
            rw [← hq'pend]
            exact ih
          exact (h1.cons u).trans (List.perm_cons_erase humem).symm

theorem pendingUrls_nodup (q : QueueState)
    (hnd : (q.map QueueEntry.url).Nodup) : (pendingUrls q).Nodup := by
  have hsub : List.Sublist (pendingUrls q) (q.map QueueEntry.url) :=
    List.Sublist.map QueueEntry.url (List.filter_sublist q)
  exact hnd.sublist hsub

/-- C1: `dequeueNext` atomically claims the oldest pending entry: it returns
null exactly when nothing is pending (leaving the state unchanged); when it
returns a url, that url belongs to a pending entry of minimal `created_at`
and exactly that entry is flipped to `processing`; and across `N`
serialized claims over a queue with at most `N` pending entries (the SQL
claim is a single atomic `UPDATE ... SKIP LOCKED` statement, so concurrent
callers serialize), the claimed urls are exactly the pending urls, each
claimed by exactly one caller. -/
theorem queueDequeue_claim_exclusivity (q : QueueState) (N : Nat)
    (hnd : (q.map QueueEntry.url).Nodup)
    (hMN : (pendingUrls q).length ≤ N) :
    ((queueDequeue q).1 = none ↔ pendingUrls q = [])
    ∧ ((queueDequeue q).1 = none → (queueDequeue q).2 = q)
    ∧ (∀ u, (queueDequeue q).1 = some u →
        ∃ sel ∈ q, sel.url = u ∧ sel.status = QStatus.pending
          ∧ (∀ e ∈ q, e.status = QStatus.pending → sel.createdAt ≤ e.createdAt)
          ∧ (queueDequeue q).2 =
              q.map fun e =>
                if e.url == u then { e with status := QStatus.processing } else e)
    ∧ List.Perm (dequeueMany N q).1 (pendingUrls q)
    ∧ (dequeueMany N q).1.Nodup := by
  have hperm := dequeueMany_perm N q hnd hMN
  refine ⟨queueDequeue_none_iff q, ?_, ?_, hperm, ?_⟩
  · intro hn
    rcases queueDequeue_elim q with ⟨_, h2, _⟩ | ⟨sel, _, h1, _⟩
    · exact h2
    · rw [h1] at hn; cases hn
  · intro u hu
    rcases queueDequeue_elim q with ⟨h1, _, _⟩ | ⟨sel, hmin, h1, h2⟩
    · rw [h1] at hu; cases hu
    · rw [h1] at hu
      injection hu with hu
      have hself := List.argmin_mem hmin
      rw [List.mem_filter] at hself
      obtain ⟨hselq, hselpend⟩ := hself
      refine ⟨sel, hselq, hu, by simpa using hselpend, ?_, by rw [h2, hu]⟩
      intro e he hep
      exact List.le_of_mem_argmin
        (List.mem_filter.mpr ⟨he, by simpa using hep⟩) hmin
  · exact hperm.nodup_iff.mpr (pendingUrls_nodup q hnd)

/-- C1 witness: a two-entry queue where the older entry was inserted second;
the first claim returns the older url `"b"` and flips exactly that row to
`processing`, and two serialized claims return each pending url exactly
once. -/
theorem queueDequeue_claim_witness :
    (([⟨"a", QStatus.pending, 0, none, 5⟩,
       ⟨"b", QStatus.pending, 0, none, 3⟩] : QueueState).map QueueEntry.url).Nodup
    ∧ (pendingUrls [⟨"a", QStatus.pending, 0, none, 5⟩,
        ⟨"b", QStatus.pending, 0, none, 3⟩]).length ≤ 2
    ∧ (queueDequeue [⟨"a", QStatus.pending, 0, none, 5⟩,
        ⟨"b", QStatus.pending, 0, none, 3⟩]).1 = some "b"
    ∧ (queueDequeue [⟨"a", QStatus.pending, 0, none, 5⟩,
        ⟨"b", QStatus.pending, 0, none, 3⟩]).2
        = [⟨"a", QStatus.pending, 0, none, 5⟩,
           ⟨"b", QStatus.processing, 0, none, 3⟩]
    ∧ (dequeueMany 2 [⟨"a", QStatus.pending, 0, none, 5⟩,
        ⟨"b", QStatus.pending, 0, none, 3⟩]).1 = ["b", "a"]
    ∧ List.Perm
        (dequeueMany 2 [⟨"a", QStatus.pending, 0, none, 5⟩,
          ⟨"b", QStatus.pending, 0, none, 3⟩]).1
        (pendingUrls [⟨"a", QStatus.pending, 0, none, 5⟩,
          ⟨"b", QStatus.pending, 0, none, 3⟩]) := by
  have h := queueDequeue_claim_exclusivity
    [⟨"a", QStatus.pending, 0, none, 5⟩, ⟨"b", QStatus.pending, 0, none, 3⟩] 2
    (by decide) (by decide)
  exact ⟨by decide, by decide, by decide, by decide, by decide, h.2.2.2.1⟩

/-! ## C2: merge-on-conflict upsert -/

theorem orNullStr_eq_some (s : String) (h : s ≠ "") : orNullStr (some s) = some s := by
  unfold orNullStr
  split
  · next heq => injection heq with heq; exact absurd heq h
  · rfl

theorem orNullInt_eq_some (y : ℤ) (h : y ≠ 0) : orNullInt (some y) = some y := by
  unfold orNullInt
  split
  · next heq => injection heq with heq; exact absurd heq h
  · rfl

theorem orNullRat_eq_some (x : ℚ) (h : x ≠ 0) : orNullRat (some x) = some x := by
  simp [orNullRat, h]

theorem coalesce_orNullStr_some (o old : Option String) (s : String)
    (ho : o = some s) (h : s ≠ "") : coalesce (orNullStr o) old = some s := by
  rw [ho, orNullStr_eq_some s h, coalesce_some]

theorem coalesce_orNullStr_falsy (o old : Option String)
    (ho : o = none ∨ o = some "") : coalesce (orNullStr o) old = old := by
  rcases ho with rfl | rfl <;> rfl

/-- A stored catalog row with non-null sillage/longevity, for the upsert
theorems. -/
def sampleRow : PerfumeRow where
  name := some "Old Name"
  brand := some "Creed"
  year := some 1995
  perfumer := none
  perfumerImageUrl := none
  gender := some "masculine"
  concentration := none
  notes := { top := [], heart := [], base := [] }
  accords := []
  description := none
  imageUrl := none
  rating := none
  sillage := some (some { dominant := "strong", percentage := 60, votes := [("strong", 30)] })
  longevity := some (some { dominant := "longlasting", percentage := 50, votes := [("longlasting", 20)] })
  projection := none
  similarPerfumes := []
  seasonUsage := none
  sourceUrl := some "https://example.com/aventus"
  scrapedAt := none

/-- C2 counterexample: upserting a record whose `sillage` is null over a
stored row with a non-null sillage does not keep the stored value — the
bound parameter is `JSON.stringify(null)`, the jsonb `null` value rather
than SQL NULL, so the `COALESCE` takes it and the stored sillage is erased;
likewise an incoming non-null `year` of 0 does not overwrite (it is coerced
to NULL by `|| null` and the stored year survives), falsifying the claim's
non-null-overwrites / null-preserves rule on both sides. -/
theorem add_merge_counterexample :
    samplePerfume.sillage = none
    ∧ readJsonb sampleRow.sillage =
        some { dominant := "strong", percentage := 60, votes := [("strong", 30)] }
    ∧ readJsonb (dataStoreAdd [sampleRow] samplePerfume).2.sillage = none
    ∧ readJsonb (dataStoreAdd [sampleRow] samplePerfume).2.sillage ≠
        readJsonb sampleRow.sillage
    ∧ samplePerfume.year = some 0
    ∧ (dataStoreAdd [sampleRow] samplePerfume).2.year = some 1995 := by
  refine ⟨rfl, rfl, ?_, ?_, rfl, ?_⟩ <;> decide

/-- C2 (amended): on upsert with an existing row for the same non-empty
`sourceUrl`, `name` and `brand` are always replaced; the scalar columns
(year, perfumer, perfumerImageUrl, gender, concentration, description,
imageUrl, rating) and `seasonUsage` are overwritten by truthy incoming
values and preserved under falsy ones (JS falsiness: null, 0, empty
string); `notes` and `accords` are always fully replaced; and `sillage` and
`longevity` are also always fully replaced, because their bound parameter is
JSON text (JS null serializes to jsonb `null`, never SQL NULL), so an
incoming null erases the stored value.  In particular upserting
`{name: "X", year: null}` over `{name: "Y", year: 1995}` yields
`{name: "X", year: 1995}`. -/
theorem add_merge_amended (table : List PerfumeRow) (old : PerfumeRow)
    (p : PerfumeIn) (u : String) (hu : u ≠ "") (hp : p.sourceUrl = some u)
    (hold : table.find? (fun r => r.sourceUrl == some u) = some old) :
    (dataStoreAdd table p).2.name = p.name
    ∧ (dataStoreAdd table p).2.brand = p.brand
    ∧ (∀ y : ℤ, p.year = some y → y ≠ 0 → (dataStoreAdd table p).2.year = some y)
    ∧ ((p.year = none ∨ p.year = some 0) → (dataStoreAdd table p).2.year = old.year)
    ∧ (∀ s, p.perfumer = some s → s ≠ "" → (dataStoreAdd table p).2.perfumer = some s)
    ∧ ((p.perfumer = none ∨ p.perfumer = some "") →
        (dataStoreAdd table p).2.perfumer = old.perfumer)
    ∧ (∀ s, p.perfumerImageUrl = some s → s ≠ "" →
        (dataStoreAdd table p).2.perfumerImageUrl = some s)
    ∧ ((p.perfumerImageUrl = none ∨ p.perfumerImageUrl = some "") →
        (dataStoreAdd table p).2.perfumerImageUrl = old.perfumerImageUrl)
    ∧ (∀ s, p.gender = some s → s ≠ "" → (dataStoreAdd table p).2.gender = some s)
    ∧ ((p.gender = none ∨ p.gender = some "") →
        (dataStoreAdd table p).2.gender = old.gender)
    ∧ (∀ s, p.concentration = some s → s ≠ "" →
        (dataStoreAdd table p).2.concentration = some s)
    ∧ ((p.concentration = none ∨ p.concentration = some "") →
        (dataStoreAdd table p).2.concentration = old.concentration)
    ∧ (∀ s, p.description = some s → s ≠ "" →
        (dataStoreAdd table p).2.description = some s)
    ∧ ((p.description = none ∨ p.description = some "") →
        (dataStoreAdd table p).2.description = old.description)
    ∧ (∀ s, p.imageUrl = some s → s ≠ "" → (dataStoreAdd table p).2.imageUrl = some s)
    ∧ ((p.imageUrl = none ∨ p.imageUrl = some "") →
        (dataStoreAdd table p).2.imageUrl = old.imageUrl)
    ∧ (∀ x : ℚ, p.rating = some x → x ≠ 0 → (dataStoreAdd table p).2.rating = some x)
    ∧ ((p.rating = none ∨ p.rating = some 0) →
        (dataStoreAdd table p).2.rating = old.rating)
    ∧ (∀ m, p.seasonUsage = some m → (dataStoreAdd table p).2.seasonUsage = some m)
    ∧ (p.seasonUsage = none → (dataStoreAdd table p).2.seasonUsage = old.seasonUsage)
    ∧ (dataStoreAdd table p).2.notes = p.notes.getD { top := [], heart := [], base := [] }
    ∧ (dataStoreAdd table p).2.accords = p.accords.getD []
    ∧ readJsonb (dataStoreAdd table p).2.sillage = p.sillage
    ∧ readJsonb (dataStoreAdd table p).2.longevity = p.longevity := by
  have hsrc : (toParams p).sourceUrl = some u := by
    show orNullStr p.sourceUrl = some u
    rw [hp]
    exact orNullStr_eq_some u hu
  have hres : (dataStoreAdd table p).2 = mergeOnConflict old (toParams p) := by
    simp only [dataStoreAdd, hsrc, hold]
  rw [hres]
  refine ⟨rfl, rfl, ?_, ?_, ?_, ?_, ?_, ?_, ?_, ?_, ?_, ?_, ?_, ?_, ?_, ?_, ?_, ?_,
    ?_, ?_, rfl, rfl, rfl, rfl⟩
  · intro y hy hy0
    show coalesce (orNullInt p.year) old.year = some y
    rw [hy, orNullInt_eq_some y hy0, coalesce_some]
  · intro hy
    show coalesce (orNullInt p.year) old.year = old.year
    rcases hy with hy | hy <;> rw [hy] <;> rfl
  · intro s hs hne
    exact coalesce_orNullStr_some p.perfumer old.perfumer s hs hne
  · intro hs
    exact coalesce_orNullStr_falsy p.perfumer old.perfumer hs
  · intro s hs hne
    exact coalesce_orNullStr_some p.perfumerImageUrl old.perfumerImageUrl s hs hne
  · intro hs
    exact coalesce_orNullStr_falsy p.perfumerImageUrl old.perfumerImageUrl hs
  · intro s hs hne
    exact coalesce_orNullStr_some p.gender old.gender s hs hne
  · intro hs
    exact coalesce_orNullStr_falsy p.gender old.gender hs
  · intro s hs hne
    exact coalesce_orNullStr_some p.concentration old.concentration s hs hne
  · intro hs
    exact coalesce_orNullStr_falsy p.concentration old.concentration hs
  · intro s hs hne
    exact coalesce_orNullStr_some p.description old.description s hs hne
  · intro hs
    exact coalesce_orNullStr_falsy p.description old.description hs
  · intro s hs hne
    exact coalesce_orNullStr_some p.imageUrl old.imageUrl s hs hne
  · intro hs
    exact coalesce_orNullStr_falsy p.imageUrl old.imageUrl hs
  · intro x hx hx0
    show coalesce (orNullRat p.rating) old.rating = some x
    rw [hx, orNullRat_eq_some x hx0, coalesce_some]
  · intro hx
    show coalesce (orNullRat p.rating) old.rating = old.rating
    rcases hx with hx | hx <;> rw [hx] <;> simp [orNullRat]
  · intro m hm
    show coalesce p.seasonUsage old.seasonUsage = some m
    rw [hm, coalesce_some]
  · intro hm
    show coalesce p.seasonUsage old.seasonUsage = old.seasonUsage
    rw [hm, coalesce_none]

/-- C2 amended witness: the spec example — upserting `{name: "X", year:
null}` over a stored `{name: "Y", year: 1995}` yields `{name: "X", year:
1995}`. -/
theorem add_merge_amended_witness :
    ("https://example.com/aventus" : String) ≠ ""
    ∧ ({ samplePerfume with name := some "X", year := none } : PerfumeIn).sourceUrl =
        some "https://example.com/aventus"
    ∧ ([{ sampleRow with name := some "Y" }] : List PerfumeRow).find?
        (fun r => r.sourceUrl == some "https://example.com/aventus") =
        some { sampleRow with name := some "Y" }
    ∧ (dataStoreAdd [{ sampleRow with name := some "Y" }]
        { samplePerfume with name := some "X", year := none }).2.name = some "X"
    ∧ (dataStoreAdd [{ sampleRow with name := some "Y" }]
        { samplePerfume with name := some "X", year := none }).2.year = some 1995 := by
  have h := add_merge_amended [{ sampleRow with name := some "Y" }]
    { sampleRow with name := some "Y" }
    { samplePerfume with name := some "X", year := none }
    "https://example.com/aventus" (by decide) rfl (by decide)
  exact ⟨by decide, rfl, by decide, h.1.trans rfl, (h.2.2.2.1 (Or.inl rfl)).trans rfl⟩

/-! ## C6: performance-metric extraction -/

theorem votesGet_nil (k : String) : votesGet [] k = 0 := rfl

theorem votesGet_cons (p : String × ℤ) (rest : VotesMap) (k : String) :
    votesGet (p :: rest) k = if p.1 = k then p.2 else votesGet rest k := by
  by_cases h : p.1 = k
  · rw [votesGet, List.find?_cons_of_pos _ (by simpa using h), if_pos h]
    rfl
  · rw [votesGet, List.find?_cons_of_neg _ (by simpa using h), if_neg h]
    rfl

theorem votesGet_votesSet (v : VotesMap) (k k' : String) (c : ℤ) :
    votesGet (votesSet v k' c) k = if k = k' then c else votesGet v k := by
  induction v with
  | nil =>
      show votesGet [(k', c)] k = _
      rw [votesGet_cons]
      by_cases h : k = k'
      · rw [if_pos (show (k', c).1 = k from h.symm), if_pos h]
      · rw [if_neg (show ¬((k', c).1 = k) from fun hh => h hh.symm), if_neg h]
  | cons p rest ih =>
      show votesGet (if (p.1 == k') = true then (k', c) :: rest
          else p :: votesSet rest k' c) k = _
      by_cases h1 : (p.1 == k') = true
      · have hp : p.1 = k' := by simpa using h1
        rw [if_pos h1, votesGet_cons, votesGet_cons]
        by_cases h2 : k = k'
        · rw [if_pos (show (k', c).1 = k from h2.symm), if_pos h2]
        · rw [if_neg (show ¬((k', c).1 = k) from fun hh => h2 hh.symm), if_neg h2,
            if_neg (show ¬(p.1 = k) from by rw [hp]; exact fun hh => h2 hh.symm)]
      · have hp : p.1 ≠ k' := by simpa using h1
        rw [if_neg h1, votesGet_cons, ih, votesGet_cons]
        by_cases h3 : p.1 = k
        · have hkk : ¬ k = k' := fun hh => hp (h3.trans hh)
          rw [if_pos h3, if_neg hkk, if_pos h3]
        · rw [if_neg h3, if_neg h3]

theorem mem_votesSet (v : VotesMap) (k : String) (c : ℤ) (p : String × ℤ)
    (hp : p ∈ votesSet v k c) : p = (k, c) ∨ p ∈ v := by
  induction v with
  | nil => simpa [votesSet] using hp
  | cons q rest ih =>
      rw [show votesSet (q :: rest) k c = if (q.1 == k) = true then (k, c) :: rest
          else q :: votesSet rest k c from rfl] at hp
      by_cases h : (q.1 == k) = true
      · rw [if_pos h] at hp
        rcases List.mem_cons.mp hp with rfl | hp
        · exact Or.inl rfl
        · exact Or.inr (List.mem_cons_of_mem _ hp)
      · rw [if_neg h] at hp
        rcases List.mem_cons.mp hp with rfl | hp
        · exact Or.inr (List.mem_cons_self _ _)
        · rcases ih hp with h1 | h1
          · exact Or.inl h1
          · exact Or.inr (List.mem_cons_of_mem _ h1)

theorem votesSet_keys_mem (v : VotesMap) (k : String) (c : ℤ) :
    k ∈ (votesSet v k c).map Prod.fst := by
  induction v with
  | nil => simp [votesSet]
  | cons q rest ih =>
      rw [show votesSet (q :: rest) k c = if (q.1 == k) = true then (k, c) :: rest
          else q :: votesSet rest k c from rfl]
      by_cases h : (q.1 == k) = true
      · rw [if_pos h]; simp
      · rw [if_neg h]
        simp only [List.map_cons, List.mem_cons]
        exact Or.inr ih

theorem votesSet_self (v : VotesMap) (k : String)
    (hk : k ∈ v.map Prod.fst) : votesSet v k (votesGet v k) = v := by
  induction v with
  | nil => simp at hk
  | cons q rest ih =>
      rw [show votesSet (q :: rest) k (votesGet (q :: rest) k)
          = if (q.1 == k) = true then (k, votesGet (q :: rest) k) :: rest
            else q :: votesSet rest k (votesGet (q :: rest) k) from rfl]
      by_cases h : (q.1 == k) = true
      · have hq : q.1 = k := by simpa using h
        rw [if_pos h, votesGet_cons, if_pos hq]
        have : (k, q.2) = q := by
          rw [← hq]
        simp [this]
      · have hq : q.1 ≠ k := by simpa using h
        rw [if_neg h, votesGet_cons, if_neg hq]
        simp only [List.map_cons, List.mem_cons] at hk
        rcases hk with hk | hk
        · exact absurd hk.symm hq
        · rw [ih hk]

theorem recordVote_eq_self (v : VotesMap) (k : String) (c : ℤ)
    (hk : k ∈ v.map Prod.fst) (hc : c ≤ votesGet v k) : recordVote v k c = v := by
  rw [recordVote, max_eq_left hc, votesSet_self v k hk]

/-- The valid counts (non-NaN, nonnegative, with a label mapping to key
`k`) that the scans observed, in order. -/
def observedCounts (labels : String → Option String) (k : String) :
    List (String × Option ℤ) → List ℤ
  | [] => []
  | o :: rest =>
      match labels o.1, o.2 with
      | some key, some c =>
          if key = k ∧ 0 ≤ c then c :: observedCounts labels k rest
          else observedCounts labels k rest
      | _, _ => observedCounts labels k rest

theorem accumulateVotes_get :
    ∀ (labels : String → Option String) (obs : List (String × Option ℤ))
      (v : VotesMap) (k : String),
      votesGet (obs.foldl (fun v o =>
          match labels o.1, o.2 with
          | some key, some c => if 0 ≤ c then recordVote v key c else v
          | _, _ => v) v) k
        = (observedCounts labels k obs).foldl max (votesGet v k)
  | _, [], _, _ => rfl
  | labels, o :: rest, v, k => by
      have h0 : observedCounts labels k (o :: rest)
          = (match labels o.1, o.2 with
             | some key, some c =>
                 if key = k ∧ 0 ≤ c then c :: observedCounts labels k rest
                 else observedCounts labels k rest
             | _, _ => observedCounts labels k rest) := rfl
      rw [List.foldl_cons]
      rcases hl : labels o.1 with _ | key <;> rcases ho : o.2 with _ | c <;> dsimp only
      · rw [show observedCounts labels k (o :: rest) = observedCounts labels k rest from by
          rw [h0, hl, ho]]
        exact accumulateVotes_get labels rest v k
      · rw [show observedCounts labels k (o :: rest) = observedCounts labels k rest from by
          rw [h0, hl, ho]]
        exact accumulateVotes_get labels rest v k
      · rw [show observedCounts labels k (o :: rest) = observedCounts labels k rest from by
          rw [h0, hl, ho]]
        exact accumulateVotes_get labels rest v k
      · by_cases hc : 0 ≤ c
        · rw [if_pos hc]
          by_cases hkey : key = k
          · subst hkey
            rw [show observedCounts labels key (o :: rest)
                = c :: observedCounts labels key rest from by
              rw [h0, hl, ho]
              dsimp only
              rw [if_pos ⟨rfl, hc⟩]]
            rw [List.foldl_cons, accumulateVotes_get labels rest _ key]
            rw [show votesGet (recordVote v key c) key = max (votesGet v key) c from by
              rw [recordVote, votesGet_votesSet, if_pos rfl]]
          · rw [show observedCounts labels k (o :: rest) = observedCounts labels k rest
                from by
              rw [h0, hl, ho]
              dsimp only
              rw [if_neg (fun hh => hkey hh.1)]]
            rw [accumulateVotes_get labels rest _ k]
            rw [show votesGet (recordVote v key c) k = votesGet v k from by
              rw [recordVote, votesGet_votesSet, if_neg (fun hh => hkey hh.symm)]]
        · rw [if_neg hc]
          rw [show observedCounts labels k (o :: rest) = observedCounts labels k rest
              from by
            rw [h0, hl, ho]
            dsimp only
            rw [if_neg (fun hh => hc hh.2)]]
          exact accumulateVotes_get labels rest v k

theorem keys_votesSet_superset (v : VotesMap) (k : String) (c : ℤ) (k0 : String)
    (h : k0 ∈ v.map Prod.fst) : k0 ∈ (votesSet v k c).map Prod.fst := by
  induction v with
  | nil => simp at h
  | cons q rest ih =>
      rw [show votesSet (q :: rest) k c = if (q.1 == k) = true then (k, c) :: rest
          else q :: votesSet rest k c from rfl]
      by_cases hq : (q.1 == k) = true
      · have hqk : q.1 = k := by simpa using hq
        rw [if_pos hq]
        simp only [List.map_cons, List.mem_cons] at h ⊢
        rcases h with h | h
        · exact Or.inl (h.trans hqk)
        · exact Or.inr h
      · rw [if_neg hq]
        simp only [List.map_cons, List.mem_cons] at h ⊢
        rcases h with h | h
        · exact Or.inl h
        · exact Or.inr (ih h)

theorem accumulateVotes_keys_mono :
    ∀ (labels : String → Option String) (obs : List (String × Option ℤ))
      (v : VotesMap) (k0 : String), k0 ∈ v.map Prod.fst →
      k0 ∈ ((obs.foldl (fun v o =>
          match labels o.1, o.2 with
          | some key, some c => if 0 ≤ c then recordVote v key c else v
          | _, _ => v) v).map Prod.fst)
  | _, [], _, _, h => h
  | labels, o :: rest, v, k0, h => by
      rw [List.foldl_cons]
      apply accumulateVotes_keys_mono labels rest
      rcases labels o.1 with _ | key <;> rcases o.2 with _ | c <;> dsimp only
      · exact h
      · exact h
      · exact h
      · by_cases hc : 0 ≤ c
        · rw [if_pos hc, recordVote]
          exact keys_votesSet_superset v key _ k0 h
        · rw [if_neg hc]
          exact h

theorem accumulateVotes_key_present :
    ∀ (labels : String → Option String) (obs : List (String × Option ℤ)) (v : VotesMap)
      (o : String × Option ℤ) (key : String) (c : ℤ),
      o ∈ obs → labels o.1 = some key → o.2 = some c → 0 ≤ c →
      key ∈ ((obs.foldl (fun v o =>
          match labels o.1, o.2 with
          | some key, some c => if 0 ≤ c then recordVote v key c else v
          | _, _ => v) v).map Prod.fst)
  | labels, o0 :: rest, v, o, key, c, ho, hl, hc2, hc => by
      rw [List.foldl_cons]
      rcases List.mem_cons.mp ho with rfl | ho
      · apply accumulateVotes_keys_mono labels rest
        rw [show (match labels o.1, o.2 with
            | some key, some c => if 0 ≤ c then recordVote v key c else v
            | _, _ => v) = recordVote v key c from by
          rw [hl, hc2]
          dsimp only
          rw [if_pos hc]]
        rw [recordVote]
        exact votesSet_keys_mem v key _
      · exact accumulateVotes_key_present labels rest _ o key c ho hl hc2 hc

theorem accumulateVotes_nonneg :
    ∀ (labels : String → Option String) (obs : List (String × Option ℤ))
      (v : VotesMap), (∀ p ∈ v, 0 ≤ p.2) →
      ∀ p ∈ (obs.foldl (fun v o =>
          match labels o.1, o.2 with
          | some key, some c => if 0 ≤ c then recordVote v key c else v
          | _, _ => v) v), 0 ≤ p.2
  | _, [], _, hv => hv
  | labels, o :: rest, v, hv => by
      rw [List.foldl_cons]
      apply accumulateVotes_nonneg labels rest
      rcases labels o.1 with _ | key <;> rcases o.2 with _ | c <;> dsimp only
      · exact hv
      · exact hv
      · exact hv
      · by_cases hc : 0 ≤ c
        · rw [if_pos hc, recordVote]
          intro p hp
          rcases mem_votesSet v key _ p hp with rfl | hp
          · exact le_trans hc (le_max_right _ _)
          · exact hv p hp
        · rw [if_neg hc]
          exact hv

theorem accumulateVotes_noop :
    ∀ (labels : String → Option String) (obs2 : List (String × Option ℤ))
      (v : VotesMap),
      (∀ o ∈ obs2, ∀ key c, labels o.1 = some key → o.2 = some c → 0 ≤ c →
        key ∈ v.map Prod.fst ∧ c ≤ votesGet v key) →
      obs2.foldl (fun v o =>
          match labels o.1, o.2 with
          | some key, some c => if 0 ≤ c then recordVote v key c else v
          | _, _ => v) v = v
  | _, [], _, _ => rfl
  | labels, o :: rest, v, h => by
      rw [List.foldl_cons]
      have hstep : (match labels o.1, o.2 with
          | some key, some c => if 0 ≤ c then recordVote v key c else v
          | _, _ => v) = v := by
        rcases hl : labels o.1 with _ | key <;> rcases ho : o.2 with _ | c <;> dsimp only
        by_cases hc : 0 ≤ c
        · rw [if_pos hc]
          obtain ⟨hk, hle⟩ := h o (List.mem_cons_self _ _) key c hl ho hc
          exact recordVote_eq_self v key c hk hle
        · rw [if_neg hc]
      rw [hstep]
      exact accumulateVotes_noop labels rest v
        fun o' ho' => h o' (List.mem_cons_of_mem _ ho')

theorem mem_observedCounts :
    ∀ (labels : String → Option String) (k : String)
      (obs : List (String × Option ℤ)) (o : String × Option ℤ) (c : ℤ),
      o ∈ obs → labels o.1 = some k → o.2 = some c → 0 ≤ c →
      c ∈ observedCounts labels k obs
  | labels, k, o0 :: rest, o, c, ho, hl, hc2, hc => by
      have h0 : observedCounts labels k (o0 :: rest)
          = (match labels o0.1, o0.2 with
             | some key, some c0 =>
                 if key = k ∧ 0 ≤ c0 then c0 :: observedCounts labels k rest
                 else observedCounts labels k rest
             | _, _ => observedCounts labels k rest) := rfl
      rcases List.mem_cons.mp ho with rfl | ho
      · rw [h0, hl, hc2]
        dsimp only
        rw [if_pos ⟨rfl, hc⟩]
        exact List.mem_cons_self _ _
      · have hIH := mem_observedCounts labels k rest o c ho hl hc2 hc
        rw [h0]
        rcases labels o0.1 with _ | key0 <;> rcases o0.2 with _ | c0 <;> dsimp only
        · exact hIH
        · exact hIH
        · exact hIH
        · by_cases hcase : key0 = k ∧ 0 ≤ c0
          · rw [if_pos hcase]
            exact List.mem_cons_of_mem _ hIH
          · rw [if_neg hcase]
            exact hIH

/-- C6: per-category vote counts are accumulated with max — not sum — so a
count seen again in a nested scan never double-counts (a repeated scan of
the same observations leaves the votes object unchanged); when the votes
object is nonempty the result is `{dominant, percentage, votes}` with
dominant a category of maximum votes and `percentage = round(100 ×
dominant's votes / sum of all categories' votes)`; when no votes were found
the result is null. -/
theorem extractPerformanceMetric_spec (labels : String → Option String)
    (obs : List (String × Option ℤ)) :
    (∀ k, votesGet (accumulateVotes labels obs) k =
        (observedCounts labels k obs).foldl max 0)
    ∧ accumulateVotes labels (obs ++ obs) = accumulateVotes labels obs
    ∧ (accumulateVotes labels obs = [] → extractPerformanceMetric labels obs = none)
    ∧ (accumulateVotes labels obs ≠ [] →
        ∃ dom ∈ accumulateVotes labels obs,
          (∀ p ∈ accumulateVotes labels obs, p.2 ≤ dom.2)
          ∧ extractPerformanceMetric labels obs =
              some { dominant := dom.1,
                     percentage := jsRound (100 * (dom.2 : ℚ) /
                       ((((accumulateVotes labels obs).map Prod.snd).sum : ℤ) : ℚ)),
                     votes := accumulateVotes labels obs }) := by
  have hidem : accumulateVotes labels (obs ++ obs) = accumulateVotes labels obs := by
    rw [accumulateVotes, List.foldl_append]
    apply accumulateVotes_noop
    intro o ho key c hl hc2 hc
    refine ⟨accumulateVotes_key_present labels obs [] o key c ho hl hc2 hc, ?_⟩
    have hget := accumulateVotes_get labels obs [] key
    rw [show (votesGet [] key) = 0 from rfl] at hget
    rw [hget]
    exact le_foldl_max _ 0 c (mem_observedCounts labels key obs o c ho hl hc2 hc)
  refine ⟨fun k => accumulateVotes_get labels obs [] k, hidem, ?_, ?_⟩
  · intro hemp
    rw [extractPerformanceMetric, hemp]
    rfl
  · intro hne
    have hnn : ∀ p ∈ accumulateVotes labels obs, 0 ≤ p.2 :=
      accumulateVotes_nonneg labels obs [] (by intro p hp; cases hp)
    cases hm : (accumulateVotes labels obs).argmax Prod.snd with
    | none => exact absurd (List.argmax_eq_none.mp hm) hne
    | some dom =>
        refine ⟨dom, List.argmax_mem hm,
          fun p hp => List.le_of_mem_argmax hp hm, ?_⟩
        rw [extractPerformanceMetric]
        have hfin : finalizeMetric (accumulateVotes labels obs)
            = some { dominant := dom.1,
                     percentage :=
                       if 0 < ((accumulateVotes labels obs).map Prod.snd).sum
                       then jsRound ((dom.2 : ℚ) /
                         ((((accumulateVotes labels obs).map Prod.snd).sum : ℤ) : ℚ) * 100)
                       else 0,
                     votes := accumulateVotes labels obs } := by
          rw [finalizeMetric, hm]
        rw [hfin]
        have hsum_nonneg : (0:ℤ) ≤ ((accumulateVotes labels obs).map Prod.snd).sum := by
          apply List.sum_nonneg
          intro x hx
          rcases List.mem_map.mp hx with ⟨p, hp, rfl⟩
          exact hnn p hp
        by_cases hpos : 0 < ((accumulateVotes labels obs).map Prod.snd).sum
        · have hpct : jsRound ((dom.2 : ℚ) /
              ((((accumulateVotes labels obs).map Prod.snd).sum : ℤ) : ℚ) * 100)
              = jsRound (100 * (dom.2 : ℚ) /
                ((((accumulateVotes labels obs).map Prod.snd).sum : ℤ) : ℚ)) := by
            congr 1
            ring
          rw [if_pos hpos, hpct]
        · have hz : ((accumulateVotes labels obs).map Prod.snd).sum = 0 :=
            le_antisymm (not_lt.mp hpos) hsum_nonneg
          have hdom2 : dom.2 = 0 := by
            have h1 : dom.2 ≤ ((accumulateVotes labels obs).map Prod.snd).sum := by
              apply List.single_le_sum
              · intro x hx
                rcases List.mem_map.mp hx with ⟨p, hp, rfl⟩
                exact hnn p hp
              · exact List.mem_map.mpr ⟨dom, List.argmax_mem hm, rfl⟩
            have h2 : 0 ≤ dom.2 := hnn dom (List.argmax_mem hm)
            omega
          rw [if_neg hpos, hz, hdom2]
          norm_num [jsRound]

/-- C6 witness: a nested scan reporting "moderate: 5" twice plus
"long lasting: 3" accumulates with max, not sum (moderate stays 5);
repeating the whole scan changes nothing; and the result is dominant
"moderate" with percentage `round(100 × 5 / 8) = 63`. -/
theorem extractPerformanceMetric_witness :
    accumulateVotes longevityLabels
        [("moderate", some 5), ("long lasting", some 3), ("moderate", some 5)]
      = [("moderate", 5), ("longlasting", 3)]
    ∧ accumulateVotes longevityLabels
        ([("moderate", some 5), ("long lasting", some 3), ("moderate", some 5)] ++
         [("moderate", some 5), ("long lasting", some 3), ("moderate", some 5)])
      = accumulateVotes longevityLabels
        [("moderate", some 5), ("long lasting", some 3), ("moderate", some 5)]
    ∧ accumulateVotes longevityLabels
        [("moderate", some 5), ("long lasting", some 3), ("moderate", some 5)] ≠ []
    ∧ extractPerformanceMetric longevityLabels
        [("moderate", some 5), ("long lasting", some 3), ("moderate", some 5)]
      = some { dominant := "moderate", percentage := 63,
               votes := [("moderate", 5), ("longlasting", 3)] } := by
  have hacc : accumulateVotes longevityLabels
      [("moderate", some 5), ("long lasting", some 3), ("moderate", some 5)]
      = [("moderate", 5), ("longlasting", 3)] := by decide
  have hspec := extractPerformanceMetric_spec longevityLabels
    [("moderate", some 5), ("long lasting", some 3), ("moderate", some 5)]
  have hne : accumulateVotes longevityLabels
      [("moderate", some 5), ("long lasting", some 3), ("moderate", some 5)] ≠ [] := by
    rw [hacc]
    simp
  obtain ⟨dom, hdom, hmax, heq⟩ := hspec.2.2.2 hne
  refine ⟨hacc, hspec.2.1, hne, ?_⟩
  rw [extractPerformanceMetric, hacc]
  have hm : (([("moderate", (5:ℤ)), ("longlasting", 3)] : VotesMap).argmax Prod.snd)
      = some ("moderate", 5) := by decide
  rw [finalizeMetric, hm]
  norm_num [jsRound]

end FragranceBackend
